import Mathlib

/-!
Verification of the response-extraction and prompt-assembly layer of the
postgeist repository (src/services/ai.ts) against its specification.

Strings are modelled as `List Char`. JavaScript behaviour that the code relies
on (String.prototype.trim, JSON.parse, the specific regular expressions it
uses, truthiness, String() coercion) is embedded explicitly below, each
definition annotated with the construct of ai.ts it translates.
-/

namespace Postgeist

/-! ## JavaScript character classes and string helpers -/

/-- Named characters, introduced by code point where a literal would be
awkward in this development. -/
def lbrace : Char := Char.ofNat 123

/-- Closing curly brace. -/
def rbrace : Char := Char.ofNat 125

/-- The backtick character used by markdown code fences. -/
def btick : Char := Char.ofNat 96

/-- The single-quote (apostrophe) character. -/
def squote : Char := Char.ofNat 39

/-- The double-quote character. -/
def dquote : Char := Char.ofNat 34

/-- The backslash character. -/
def bslash : Char := Char.ofNat 92

/-- JavaScript whitespace, as used by `String.prototype.trim` and the regex
class `\s`: space, tab, line feed, carriage return, vertical tab, form feed
and no-break space. (The full JS set also has exotic Unicode spaces; none
occurs in this development.) -/
def isJsWs (c : Char) : Bool :=
  c = ' ' || c = '\t' || c = '\n' || c = '\r' ||
  c = Char.ofNat 11 || c = Char.ofNat 12 || c = Char.ofNat 160

/-- JavaScript `String.prototype.trim`: drop whitespace from both ends. -/
def jsTrim (s : List Char) : List Char :=
  ((s.dropWhile isJsWs).reverse.dropWhile isJsWs).reverse

/-- Line terminators recognised by the `m` regex flag and excluded by `.`:
line feed, carriage return, line separator, paragraph separator. -/
def isLineBreak (c : Char) : Bool :=
  c = '\n' || c = '\r' || c = Char.ofNat 0x2028 || c = Char.ofNat 0x2029

/-! ## The JSON value model and a model of JSON.parse -/

/-- A parsed JSON value. Numbers are kept exactly as `mantissa * 10 ^ exp10`
(ai.ts never computes with them; they only flow through `String()`).
Object fields are kept in source order; duplicate keys are resolved on access
by taking the last occurrence, as `JSON.parse` does. -/
inductive Json where
  | null
  | bool (b : Bool)
  | num (mant : Int) (exp10 : Int)
  | str (s : List Char)
  | arr (items : List Json)
  | obj (fields : List (List Char × Json))

/-- Member access `o[k]` on a parsed object: the last field with the key, as
duplicate keys in `JSON.parse` overwrite earlier ones. -/
def getField (fields : List (List Char × Json)) (k : List Char) : Option Json :=
  ((fields.filter (fun f => f.1 = k)).getLast?).map Prod.snd

/-- JavaScript truthiness of a parsed JSON value. -/
def truthy : Json → Bool
  | .null => false
  | .bool b => b
  | .num m _ => !(m = 0)
  | .str s => !s.isEmpty
  | .arr _ => true
  | .obj _ => true

/-- Decimal characters of a natural number. -/
def natToChars (n : Nat) : List Char := (Nat.repr n).toList

/-- Decimal characters of an integer. -/
def intToChars (i : Int) : List Char :=
  (if i < 0 then ['-'] else []) ++ natToChars i.natAbs

mutual

/-- JavaScript `String(v)` on a parsed JSON value. Non-integer numbers are
rendered in mantissa/exponent form (exact JS float formatting is out of
scope; no theorem below evaluates `String()` on a number). Arrays join their
elements with commas, rendering `null` inside an array as the empty string;
plain objects stringify to the fixed tag, as in JS. -/
def jsToString : Json → List Char
  | .null => "null".toList
  | .bool true => "true".toList
  | .bool false => "false".toList
  | .num m e => intToChars m ++ (if e = 0 then [] else 'e' :: intToChars e)
  | .str s => s
  | .arr items => jsToStringItems items
  | .obj _ => "[object Object]".toList

/-- Comma-joined rendering of array elements for `String()`. -/
def jsToStringItems : List Json → List Char
  | [] => []
  | [Json.null] => []
  | [j] => jsToString j
  | Json.null :: rest => ',' :: jsToStringItems rest
  | j :: rest => jsToString j ++ ',' :: jsToStringItems rest

end

/-- JSON whitespace accepted between tokens by `JSON.parse`: space, tab,
line feed, carriage return (a strictly smaller set than `\s`). -/
def isJsonWs (c : Char) : Bool :=
  c = ' ' || c = '\t' || c = '\n' || c = '\r'

/-- Drop leading JSON whitespace. -/
def skipJsonWs (cs : List Char) : List Char := cs.dropWhile isJsonWs

/-- Value of a hexadecimal digit character. -/
def hexDigitVal (c : Char) : Option Nat :=
  if '0' ≤ c ∧ c ≤ '9' then some (c.toNat - '0'.toNat)
  else if 'a' ≤ c ∧ c ≤ 'f' then some (c.toNat - 'a'.toNat + 10)
  else if 'A' ≤ c ∧ c ≤ 'F' then some (c.toNat - 'A'.toNat + 10)
  else none

/-- Resolve a single-character JSON string escape. -/
def jsonEscChar (c : Char) : Option Char :=
  if c = dquote then some dquote
  else if c = bslash then some bslash
  else if c = '/' then some '/'
  else if c = 'b' then some (Char.ofNat 8)
  else if c = 'f' then some (Char.ofNat 12)
  else if c = 'n' then some '\n'
  else if c = 'r' then some '\r'
  else if c = 't' then some '\t'
  else none

/-- Body of a JSON string literal, after the opening quote. `JSON.parse`
rejects raw control characters and unknown escapes. -/
def jpStrBody (acc : List Char) : List Char → Option (List Char × List Char)
  | [] => none
  | c :: rest =>
      if c = dquote then some (acc.reverse, rest)
      else if c = bslash then
        match rest with
        | [] => none
        | e :: rest1 =>
            if e = 'u' then
              match rest1 with
              | a :: b :: cc :: d :: rest2 =>
                  match hexDigitVal a, hexDigitVal b, hexDigitVal cc, hexDigitVal d with
                  | some va, some vb, some vc, some vd =>
                      jpStrBody (Char.ofNat (((va * 16 + vb) * 16 + vc) * 16 + vd) :: acc) rest2
                  | _, _, _, _ => none
              | _ => none
            else
              match jsonEscChar e with
              | some r => jpStrBody (r :: acc) rest1
              | none => none
      else if c.toNat < 32 then none
      else jpStrBody (c :: acc) rest

/-- Digits of a decimal run, most significant first, with the remainder. -/
def jpDigits (cs : List Char) : List Char × List Char :=
  (cs.takeWhile Char.isDigit, cs.dropWhile Char.isDigit)

/-- Numeric value of a digit run. -/
def digitsVal (ds : List Char) : Nat :=
  ds.foldl (fun a c => a * 10 + (c.toNat - '0'.toNat)) 0

/-- A JSON number literal: optional minus, an integer part without leading
zeros, optional fraction, optional exponent. Any stray trailing digit (as in
`01`) is left unconsumed and makes the enclosing parse fail on the leftover,
exactly as in `JSON.parse`. -/
def jpNum (cs : List Char) : Option ((Int × Int) × List Char) :=
  let signed : Bool × List Char := match cs with
    | '-' :: r => (true, r)
    | _ => (false, cs)
  let neg := signed.1
  let afterSign := signed.2
  let intPart : Option (List Char × List Char) := match afterSign with
    | '0' :: r => some (['0'], r)
    | c :: _ =>
        if c.isDigit then
          let p := jpDigits afterSign
          some (p.1, p.2)
        else none
    | [] => none
  match intPart with
  | none => none
  | some (ids, r1) =>
      let frac : List Char × List Char := match r1 with
        | '.' :: d :: r2 =>
            if d.isDigit then jpDigits (d :: r2) else ([], r1)
        | _ => ([], r1)
      let fds := frac.1
      let r3 := if fds.isEmpty then r1 else frac.2
      let expPart : Int × List Char := match r3 with
        | e :: r4 =>
            if e = 'e' ∨ e = 'E' then
              let se : Int × List Char := match r4 with
                | '+' :: r5 => (1, r5)
                | '-' :: r5 => (-1, r5)
                | _ => (1, r4)
              let eds := jpDigits se.2
              if eds.1.isEmpty then (0, r3) else (se.1 * (digitsVal eds.1 : Int), eds.2)
            else (0, r3)
        | [] => (0, r3)
      let mant : Int := (if neg then -1 else 1) * (digitsVal (ids ++ fds) : Int)
      some ((mant, expPart.1 - (fds.length : Int)), expPart.2)

mutual

/-- One JSON value, fuel-bounded model of the recursive-descent grammar of
`JSON.parse`. Leading whitespace is skipped here, so every production site
may call it directly. -/
def jpVal : Nat → List Char → Option (Json × List Char)
  | 0, _ => none
  | fuel + 1, cs =>
      match skipJsonWs cs with
      | 'n' :: 'u' :: 'l' :: 'l' :: r => some (.null, r)
      | 't' :: 'r' :: 'u' :: 'e' :: r => some (.bool true, r)
      | 'f' :: 'a' :: 'l' :: 's' :: 'e' :: r => some (.bool false, r)
      | c :: r =>
          if c = dquote then
            match jpStrBody [] r with
            | some (s, r1) => some (.str s, r1)
            | none => none
          else if c = '[' then
            match skipJsonWs r with
            | ']' :: r1 => some (.arr [], r1)
            | r1 =>
                match jpItems fuel r1 with
                | some (items, r2) => some (.arr items, r2)
                | none => none
          else if c = lbrace then
            match skipJsonWs r with
            | d :: r1 =>
                if d = rbrace then some (.obj [], r1)
                else
                  match jpFields fuel (d :: r1) with
                  | some (fs, r2) => some (.obj fs, r2)
                  | none => none
            | [] => none
          else if c = '-' ∨ c.isDigit then
            match jpNum (c :: r) with
            | some (n, r1) => some (.num n.1 n.2, r1)
            | none => none
          else none
      | [] => none

/-- One or more comma-separated array items, up to and including the closing
bracket. -/
def jpItems : Nat → List Char → Option (List Json × List Char)
  | 0, _ => none
  | fuel + 1, cs =>
      match jpVal fuel cs with
      | none => none
      | some (v, r) =>
          match skipJsonWs r with
          | ',' :: r1 =>
              match jpItems fuel r1 with
              | some (vs, r2) => some (v :: vs, r2)
              | none => none
          | ']' :: r1 => some ([v], r1)
          | _ => none

/-- One or more comma-separated object members, up to and including the
closing brace. -/
def jpFields : Nat → List Char → Option (List (List Char × Json) × List Char)
  | 0, _ => none
  | fuel + 1, cs =>
      match skipJsonWs cs with
      | c :: r =>
          if c = dquote then
            match jpStrBody [] r with
            | none => none
            | some (k, r1) =>
                match skipJsonWs r1 with
                | ':' :: r2 =>
                    match jpVal fuel r2 with
                    | none => none
                    | some (v, r3) =>
                        match skipJsonWs r3 with
                        | ',' :: r4 =>
                            match jpFields fuel r4 with
                            | some (fs, r5) => some ((k, v) :: fs, r5)
                            | none => none
                        | d :: r4 =>
                            if d = rbrace then some ([(k, v)], r4) else none
                        | [] => none
                | _ => none
          else none
      | [] => none

end

/-- Model of `JSON.parse`: one value, then nothing but whitespace. `none`
models the exception. -/
def parseJson (s : List Char) : Option Json :=
  match jpVal (s.length + 1) s with
  | none => none
  | some (j, r) => if (skipJsonWs r).isEmpty then some j else none

/-! ## Models of the regular expressions in ai.ts -/

/-- Remainder of `s` after the literal prefix `p`, when `p` is a prefix. -/
def dropPrefixChars : List Char → List Char → Option (List Char)
  | [], s => some s
  | _ :: _, [] => none
  | p :: ps, c :: cs => if p = c then dropPrefixChars ps cs else none

/-- Model of `jsonString.match(/\[[\s\S]*?\]/)` (ai.ts line 461): leftmost,
then lazy — the span from the first opening bracket of the string up to the
first closing bracket after it, if both exist. -/
def firstBracketSpan (s : List Char) : Option (List Char) :=
  let pre := s.takeWhile (fun c => !(c = '['))
  match s.drop pre.length with
  | '[' :: r =>
      let mid := r.takeWhile (fun c => !(c = ']'))
      match r.drop mid.length with
      | ']' :: _ => some ('[' :: (mid ++ [']']))
      | _ => none
  | _ => none

/-- Lazy body of a fenced block: scan for the closing bracket character; the
first occurrence followed (after `\s*`) by three backticks ends the group, as
the lazy `[\s\S]*?` tries shorter bodies first. Returns the group body
including the closing bracket, and the remainder after the closing fence. -/
def fenceBody (cc : Char) (acc : List Char) : List Char → Option (List Char × List Char)
  | [] => none
  | c :: rest =>
      if c = cc then
        match dropPrefixChars [btick, btick, btick] (rest.dropWhile isJsWs) with
        | some r => some ((c :: acc).reverse, r)
        | none => fenceBody cc (c :: acc) rest
      else fenceBody cc (c :: acc) rest

/-- One attempt, at the head of `cs`, of the fenced-code-block pattern in
`replace(/‛‛‛(?:json)?\s*(\[[\s\S]*?\])\s*‛‛‛/g, delim written here with ‛
for a backtick) of ai.ts line 458 (and its curly-brace sibling at line 598).
The optional `json` tag is consumed when present; skipping it instead can
never rescue a failed attempt, because the following characters would then
have to satisfy `\s*` and the opening bracket, and the letter j satisfies
neither. Returns the captured group and the rest after the whole match. -/
def tryFenceAt (oc cc : Char) (cs : List Char) : Option (List Char × List Char) :=
  match dropPrefixChars [btick, btick, btick] cs with
  | none => none
  | some r0 =>
      let r1 := match dropPrefixChars ("json".toList) r0 with
        | some r => r
        | none => r0
      match r1.dropWhile isJsWs with
      | c :: r2 =>
          if c = oc then
            match fenceBody cc [] r2 with
            | some (body, rest) => some (oc :: body, rest)
            | none => none
          else none
      | [] => none

/-- Model of the global fence-stripping `replace(..., g-flag)`: scan left to
right; where the fence pattern matches, emit the captured group and resume
after the match, otherwise emit the character and move on by one. The fuel is
the scan budget; callers pass the input length (every match consumes at least
one character). -/
def replaceFencePass (oc cc : Char) : Nat → List Char → List Char
  | 0, s => s
  | _, [] => []
  | fuel + 1, c :: rest =>
      match tryFenceAt oc cc (c :: rest) with
      | some (grp, after) => grp ++ replaceFencePass oc cc fuel after
      | none => c :: replaceFencePass oc cc fuel rest

/-- Model of `.match(/\{[\s\S]*?\}$/)` (ai.ts line 601): anchored at the end
of the string, so there is a match exactly when the string ends with a
closing brace strictly after its first opening brace, and the match then runs
from that first opening brace to the end. -/
def braceToEndSpan (s : List Char) : Option (List Char) :=
  let pre := s.takeWhile (fun c => !(c = lbrace))
  let rest := s.drop pre.length
  match rest with
  | _ :: _ :: _ => if s.getLast? = some rbrace then some rest else none
  | _ => none

/-- Index of the first occurrence of a character, as `String.indexOf`. -/
def firstIdxOf (c : Char) (s : List Char) : Option Nat :=
  s.findIdx? (fun x => x = c)

/-- Index of the last occurrence of a character, as `String.lastIndexOf`. -/
def lastIdxOf (c : Char) (s : List Char) : Option Nat :=
  match s.reverse.findIdx? (fun x => x = c) with
  | none => none
  | some i => some (s.length - 1 - i)

/-- Generic model of `matchAll` for the recovery patterns: leftmost,
non-overlapping matches, scanning forward one character on failure. Every
pattern used here consumes at least one character per match. The fuel is the
scan budget; callers pass the input length. -/
def scanAll (tryAt : List Char → Option (List Char × List Char)) :
    Nat → List Char → List (List Char)
  | 0, _ => []
  | _, [] => []
  | fuel + 1, c :: rest =>
      match tryAt (c :: rest) with
      | some (grp, after) => grp :: scanAll tryAt fuel after
      | none => scanAll tryAt fuel rest

/-- One attempt, at the head of `cs`, of the first recovery pattern
`/"text":\s*"([^"]+(?:\\.[^"]*)*)"/g` (ai.ts line 519). The greedy engine
first tries the maximal `[^"]+` run with zero iterations of the escape
group; that attempt already succeeds whenever a double quote follows the run,
and when the input has no later double quote at all no backtracked attempt
can supply the required closing quote either. The escape group is therefore
unreachable, and the capture is exactly the maximal nonempty quote-free run
followed by a closing quote. -/
def tryTextDq (cs : List Char) : Option (List Char × List Char) :=
  match dropPrefixChars [dquote, 't', 'e', 'x', 't', dquote, ':'] cs with
  | none => none
  | some r1 =>
      match r1.dropWhile isJsWs with
      | c :: r2 =>
          if c = dquote then
            let run := r2.takeWhile (fun x => !(x = dquote))
            if run.isEmpty then none
            else
              match r2.drop run.length with
              | q :: rest => if q = dquote then some (run, rest) else none
              | [] => none
          else none
      | [] => none

/-- One attempt of the second recovery pattern, the single-quoted variant
`/'text':\s*'([^']+(?:\\.[^']*)*)'/g` (ai.ts line 521); same shape as
`tryTextDq` with single quotes. -/
def tryTextSq (cs : List Char) : Option (List Char × List Char) :=
  match dropPrefixChars [squote, 't', 'e', 'x', 't', squote, ':'] cs with
  | none => none
  | some r1 =>
      match r1.dropWhile isJsWs with
      | c :: r2 =>
          if c = squote then
            let run := r2.takeWhile (fun x => !(x = squote))
            if run.isEmpty then none
            else
              match r2.drop run.length with
              | q :: rest => if q = squote then some (run, rest) else none
              | [] => none
          else none
      | [] => none

/-- Shared tail `\s*([^\n\r]+)` of the numbered-list and bullet patterns.
The greedy `\s*` puts the group start as late as possible: at the first
non-whitespace character when one exists; when whitespace runs to the end of
the input the engine backtracks and the group becomes the last whitespace
character that is not a line break (the characters after it are all line
breaks, so the group cannot extend further). -/
def trySpacedTail (cs : List Char) : Option (List Char × List Char) :=
  let ws := cs.takeWhile isJsWs
  match cs.drop ws.length with
  | c :: r =>
      let grp := (c :: r).takeWhile (fun x => !(x = '\n') && !(x = '\r'))
      if grp.isEmpty then none else some (grp, (c :: r).drop grp.length)
  | [] =>
      let tailBreaks := ws.reverse.takeWhile (fun x => x = '\n' || x = '\r')
      match ws.reverse.drop tailBreaks.length with
      | c :: _ => some ([c], tailBreaks.reverse)
      | [] => none

/-- One attempt of the third recovery pattern `/\d+\.\s*([^\n\r]+)/g`
(ai.ts line 523): a digit run, a dot, then the shared spaced tail. -/
def tryNumbered (cs : List Char) : Option (List Char × List Char) :=
  let ds := cs.takeWhile Char.isDigit
  if ds.isEmpty then none
  else
    match cs.drop ds.length with
    | '.' :: r => trySpacedTail r
    | _ => none

/-- The character class of the fourth recovery pattern (ai.ts line 525). The
source file stores the bullet as the mojibake bytes U+201A U+00C4 U+00A2, so
the class holds the hyphen and those three characters. -/
def isBulletChar (c : Char) : Bool :=
  c = '-' || c = Char.ofNat 0x201A || c = Char.ofNat 0xC4 || c = Char.ofNat 0xA2

/-- One attempt of the fourth recovery pattern, a bullet character followed
by the shared spaced tail. -/
def tryBullet (cs : List Char) : Option (List Char × List Char) :=
  match cs with
  | c :: r => if isBulletChar c then trySpacedTail r else none
  | [] => none

/-- Lines of a string, split at every line terminator (the boundary set used
by the `m` flag), keeping empty lines. -/
def splitLines : List Char → List (List Char)
  | [] => [[]]
  | c :: rest =>
      if isLineBreak c then [] :: splitLines rest
      else
        match splitLines rest with
        | l :: ls => (c :: l) :: ls
        | [] => [[c]]

/-- Model of the fifth recovery pattern `/^(.{20,280})$/gm` (ai.ts line 527):
with the multiline flag the anchors sit at line boundaries and the dot
crosses none of them, so the matches are exactly the whole lines of length
20 to 280, in order. -/
def bareLineGroups (s : List Char) : List (List Char) :=
  (splitLines s).filter (fun l => 20 ≤ l.length && l.length ≤ 280)

/-! ## The draft record and the extraction pipeline of ai.ts -/

/-- The member key `text`. -/
def textKey : List Char := "text".toList

/-- The member key `community`. -/
def communityKey : List Char := "community".toList

/-- The member key `reasoning`. -/
def reasoningKey : List Char := "reasoning".toList

/-- The default reasoning of stage 1 (ai.ts line 495). -/
def noReasoningText : List Char := "No reasoning provided".toList

/-- The record `parseJsonFromResponse` produces for each draft (the TS
`PostIdea`; `community: null` is `none`). -/
structure PostIdea where
  text : List Char
  community : Option (List Char)
  reasoning : List Char
deriving DecidableEq, Repr

/-- Per-element validation and coercion of stage 1 (ai.ts lines 483–497);
`none` models the throw that aborts strict extraction. A JSON array passes
the `typeof item === "object"` test but its `.text` member is undefined, so
it fails like every other non-object; an empty `text` string is falsy and
fails; `community` keeps `null` and otherwise goes through `String()`;
`reasoning` goes through `String()` when truthy and is defaulted otherwise. -/
def validateIdea (item : Json) : Option PostIdea :=
  match item with
  | .obj fields =>
      match getField fields textKey with
      | some (.str t) =>
          if t.isEmpty then none
          else
            let comm : Option (List Char) :=
              match getField fields communityKey with
              | none => none
              | some .null => none
              | some v => some (jsToString v)
            let reas : List Char :=
              match getField fields reasoningKey with
              | some v => if truthy v then jsToString v else noReasoningText
              | none => noReasoningText
            some ⟨jsTrim t, comm, reas⟩
      | _ => none
  | _ => none

/-- Stage 1 of `parseJsonFromResponse` (ai.ts lines 450–500): trim, strip
fenced code blocks, take the lazy bracket span, `JSON.parse` it, require a
nonempty array, then validate the first `count` elements (the code slices
before mapping, so later elements are never looked at). `none` models every
thrown error, all of which the surrounding catch turns into the fallback. -/
def parseStage1 (responseText : List Char) (count : Nat) : Option (List PostIdea) :=
  let s0 := jsTrim responseText
  let s1 := replaceFencePass '[' ']' s0.length s0
  match firstBracketSpan s1 with
  | none => none
  | some m =>
      match parseJson m with
      | some (.arr items) =>
          if items.isEmpty then none
          else (items.take count).mapM validateIdea
      | _ => none

/-- The reasoning marker of the regex-recovery stage (ai.ts line 553). -/
def fallbackReasoningText : List Char := "Generated via fallback parsing".toList

/-- The reasoning marker of the emergency stage (ai.ts line 575). -/
def emergencyReasoningText : List Char :=
  "Emergency fallback - please regenerate for better results".toList

/-- A draft as built by the regex-recovery stage (ai.ts lines 550–554). -/
def mkFallbackIdea (t : List Char) : PostIdea :=
  ⟨t, none, fallbackReasoningText⟩

/-- The three chained `replace` calls of ai.ts lines 542–545, in order:
backslash–doublequote to doublequote, backslash–singlequote to singlequote,
double backslash to single backslash; each pass replaces left to right
without overlap. -/
def replacePair (a b r : Char) : List Char → List Char
  | x :: y :: rest =>
      if x = a ∧ y = b then r :: replacePair a b r rest
      else x :: replacePair a b r (y :: rest)
  | l => l

/-- Unescaping applied to each recovered candidate before it is stored. -/
def unescapeFallback (t : List Char) : List Char :=
  replacePair bslash bslash bslash
    (replacePair bslash squote squote
      (replacePair bslash dquote dquote t))

/-- The candidate-collection loop body of `fallbackParsePostIdeas` (ai.ts
lines 536–557) over the capture groups of one pattern: stop once `count`
ideas are held; keep a group when its trimmed text is nonempty and 10 to 280
characters long; clean and re-trim it; drop exact duplicates of an already
collected text. -/
def collectGroups (count : Nat) (acc : List PostIdea) : List (List Char) → List PostIdea
  | [] => acc
  | g :: gs =>
      if count ≤ acc.length then acc
      else
        let t := jsTrim g
        if !t.isEmpty && (10 ≤ t.length && t.length ≤ 280) then
          let clean := jsTrim (unescapeFallback t)
          if acc.any (fun i => i.text = clean) then collectGroups count acc gs
          else collectGroups count (acc ++ [mkFallbackIdea clean]) gs
        else collectGroups count acc gs

/-- Capture groups of the five recovery patterns, in the order the code
tries them. -/
def patternGroups (text : List Char) : List (List (List Char)) :=
  [ scanAll tryTextDq text.length text,
    scanAll tryTextSq text.length text,
    scanAll tryNumbered text.length text,
    scanAll tryBullet text.length text,
    bareLineGroups text ]

/-- The outer pattern loop of `fallbackParsePostIdeas` (ai.ts lines
530–558). The source breaks out of the loop once `count` ideas are held; as
the collection never shrinks, skipping the remaining patterns instead is the
same thing. -/
def fallbackCollect (text : List Char) (count : Nat) : List PostIdea :=
  (patternGroups text).foldl
    (fun acc gs => if count ≤ acc.length then acc else collectGroups count acc gs) []

/-- The five emergency posts of ai.ts lines 564–570, byte for byte (the
source file stores the emoji as mojibake code points, reproduced here). -/
def emergencyPosts : List (List Char) :=
  [ "Just had an interesting thought about technology and how it shapes our daily lives. ü§î".toList,
    "Working on something new and exciting. Can".toList ++ [squote] ++ "t wait to share more details soon! üöÄ".toList,
    "Sometimes the best ideas come when you least expect them. ‚ú®".toList,
    "Grateful for all the amazing people in this community. You inspire me every day! üôè".toList,
    "Learning something new every day. Growth never stops! üìö".toList ]

/-- Stage 2 and stage 3 of the extraction (ai.ts lines 510–586): regex
recovery, and when it collects nothing, the emergency posts truncated to
`count`. Nothing in the body can throw, so the function is total. -/
def fallbackParsePostIdeas (responseText : List Char) (count : Nat) : List PostIdea :=
  let ideas := fallbackCollect responseText count
  if ideas.isEmpty then
    (emergencyPosts.take count).map (fun t => ⟨t, none, emergencyReasoningText⟩)
  else ideas.take count

/-- The response extractor `parseJsonFromResponse` (ai.ts lines 448–508):
stage 1, with every failure routed to the fallback on the original
response text. -/
def parseJsonFromResponse (responseText : List Char) (count : Nat) : List PostIdea :=
  match parseStage1 responseText count with
  | some ideas => ideas
  | none => fallbackParsePostIdeas responseText count

/-- Truthiness of a member of a parsed object; anything that is not an
object has no such member, and undefined is falsy. -/
def truthyField (p : Json) (k : List Char) : Bool :=
  match p with
  | .obj fs =>
      match getField fs k with
      | some v => truthy v
      | none => false
  | _ => false

/-- The object-extraction step of `parseAnalysisJson` (ai.ts lines 601–612):
the end-anchored lazy brace match, and otherwise the indexOf/lastIndexOf
slice, applied only when both braces exist in the right order. -/
def extractObjString (s1 : List Char) : List Char :=
  match braceToEndSpan s1 with
  | some m => m
  | none =>
      match firstIdxOf lbrace s1, lastIdxOf rbrace s1 with
      | some a, some b => if a < b then (s1.drop a).take (b + 1 - a) else s1
      | _, _ => s1

/-- The analysis extractor `parseAnalysisJson` (ai.ts lines 589–630): trim,
strip fenced blocks (curly-brace form), extract the object span, parse it,
then require `summary`, `key_themes` and `tone` to be present and truthy.
`none` models the throw. -/
def parseAnalysisJson (responseText : List Char) : Option Json :=
  let s0 := jsTrim responseText
  let s1 := replaceFencePass lbrace rbrace s0.length s0
  let s2 := extractObjString s1
  match parseJson s2 with
  | none => none
  | some p =>
      if truthyField p ("summary".toList) && (truthyField p ("key_themes".toList) &&
          truthyField p ("tone".toList))
      then some p else none

/-! ## The data model of src/types/index.ts -/

/-- A scraped post (the TS `TwitterPost`); the optional photo and video
arrays are modelled as possibly-empty lists of their URLs, which the code
never distinguishes from absent ones (it always guards with
`length > 0`). -/
structure TwitterPost where
  text : List Char
  photos : List (List Char)
  videos : List (List Char)
deriving DecidableEq, Repr

/-- A configured community. -/
structure Community where
  name : List Char
  description : List Char
deriving DecidableEq, Repr

/-- The TS `Analysis` record: the mandatory fields, and the optional
enrichments that the generation prompt reads. -/
structure Analysis where
  summary : List Char
  key_themes : List (List Char)
  engagement_patterns : List (List Char)
  unique_behaviors : List (List Char)
  opportunities : List (List Char)
  tone : List Char
  content_taxonomy : Option (List (List Char))
  thematic_analysis : Option (List (List Char))
  linguistic_patterns : Option (List (List Char))
  engagement_mechanics : Option (List (List Char))
  untapped_opportunities : Option (List (List Char))
  voice_architecture : Option (List Char)
deriving DecidableEq, Repr

/-- The TS `UserData` aggregate (the fields the core reads). -/
structure UserData where
  username : List Char
  posts : List TwitterPost
  analysis : Option Analysis
  customInstructions : Option (List Char)
  availableCommunities : Option (List Community)
deriving DecidableEq, Repr

/-! ## Prompt assembly in generatePostIdeas (ai.ts lines 105–192)

The literal text is reproduced from the source byte for byte (the source
stores some emoji as mojibake; those code points are kept). -/

/-- Join with a separator, as `Array.prototype.join`. -/
def joinSep (sep : List Char) : List (List Char) → List Char
  | [] => []
  | [x] => x
  | x :: y :: rest => x ++ sep ++ joinSep sep (y :: rest)

/-- Join with a comma and space, the form every analysis field uses. -/
def joinComma (l : List (List Char)) : List Char := joinSep (", ".toList) l

/-- Literal chunk between the custom-instructions hole and the summary hole
of the generation prompt template. -/
def gpChunk2 : List Char :=
  "\n\n‚ö†Ô∏è CRITICAL: The custom instructions above are the HIGHEST PRIORITY. They must be followed EXACTLY and take precedence over all other guidance below. If there is any conflict between custom instructions and other requirements, ALWAYS follow the custom instructions.\n\nUSER ANALYSIS:\nSummary: ".toList

/-- Literal chunk before the key-themes hole. -/
def gpChunk3 : List Char := "\nKey Themes: ".toList

/-- Literal chunk before the engagement-patterns hole. -/
def gpChunk4 : List Char := "\nEngagement Patterns: ".toList

/-- Literal chunk before the tone hole. -/
def gpChunk5 : List Char := "\nTone: ".toList

/-- Literal chunk between the tone hole and the prior-posts hole, the
existing-posts banner. -/
def gpChunk6 : List Char :=
  "\n\nüö® EXISTING POSTS TO AVOID DUPLICATING:\n(Study these for STYLE ONLY - DO NOT generate similar content)\n".toList

/-- Literal chunk between the strategic-insights hole and the count hole:
requirements, tool list and the output-format contract. -/
def gpChunk9 : List Char :=
  "\n\nREQUIREMENTS (Secondary to custom instructions):\n- Match the user".toList ++
    [squote] ++
    "s exact writing style, tone, and voice\n- Use similar emoji patterns and formatting\n- Make posts 20-280 characters long\n- Each post should be ready to copy-paste to Twitter\n\nTOOLS AVAILABLE:\n- website_visit: Extract content from websites\n- web_search: Search for current information\n- Use these tools if the custom instructions mention links or search queries\n\nCRITICAL: You must respond with ONLY a valid JSON array. No other text before or after.\n\nFormat exactly like this:\n[\n  \x7b\n    \"text\": \"Your first post text here\",\n    \"community\": null,\n    \"reasoning\": \"Why this post fits the user".toList ++
    [squote] ++
    "s style\"\n  \x7d,\n  \x7b\n    \"text\": \"Your second post text here\",\n    \"community\": \"CommunityName\",\n    \"reasoning\": \"Why this belongs in this community\"\n  \x7d\n]\n\nGenerate exactly ".toList

/-- Literal closing chunk after the count hole. -/
def gpChunk10 : List Char :=
  " posts. Start with [ and end with ]. No markdown, no explanations, just the JSON array.".toList

/-- Literal prefix of the custom-instructions section (ai.ts 122–124). -/
def ciPre : List Char := "\n\nCUSTOM INSTRUCTIONS:\n".toList

/-- Literal suffix of the custom-instructions section. -/
def ciPost : List Char :=
  "\n\nMake sure to follow these custom instructions carefully when generating posts.".toList

/-- The custom-instructions section: empty unless the profile holds a
nonempty instruction string (JS truthiness). -/
def customInstructionsSection (ud : UserData) : List Char :=
  match ud.customInstructions with
  | some ci => if ci.isEmpty then [] else ciPre ++ ci ++ ciPost
  | none => []

/-- Literal prefix of the communities section (ai.ts 126–128). -/
def avPre : List Char := "\n\nAVAILABLE COMMUNITIES:\n".toList

/-- Literal suffix of the communities section. -/
def avPost : List Char :=
  "\n\nFor each post, decide whether it should be posted to one of these communities or no community at all. Only assign a community if the post content directly relates to that community".toList ++
    [squote] ++ "s focus.".toList

/-- Literal no-communities form of the communities section. -/
def avNone : List Char :=
  "\n\nNo communities available - set community to null for all posts.".toList

/-- The communities section. -/
def communitiesSection (ud : UserData) : List Char :=
  match ud.availableCommunities with
  | some cs =>
      if 0 < cs.length then
        avPre ++
          joinSep ['\n'] (cs.map (fun c => "- ".toList ++ c.name ++ ": ".toList ++ c.description)) ++
          avPost
      else avNone
  | none => avNone

/-- Literal chunks of the strategic-insights section (ai.ts 130–138). -/
def siChunk0 : List Char := "\n\nSTRATEGIC CONTENT INSIGHTS:\nContent Taxonomy: ".toList

/-- Strategic-insights chunk before the thematic-analysis hole. -/
def siChunk1 : List Char := "\nThematic Analysis: ".toList

/-- Strategic-insights chunk before the linguistic-patterns hole. -/
def siChunk2 : List Char := "\nLinguistic Patterns: ".toList

/-- Strategic-insights chunk before the engagement-mechanics hole. -/
def siChunk3 : List Char := "\nEngagement Mechanics: ".toList

/-- Strategic-insights chunk before the untapped-opportunities hole. -/
def siChunk4 : List Char := "\nUntapped Opportunities: ".toList

/-- Strategic-insights chunk before the voice-architecture hole. -/
def siChunk5 : List Char := "\nVoice Architecture: ".toList

/-- Closing chunk of the strategic-insights section. -/
def siChunk6 : List Char :=
  "\n\nUse these insights to generate content that represents a natural EVOLUTION of their voice and explores the untapped opportunities identified in the analysis.".toList

/-- JS `field?.join(", ") || "Not analyzed"`: an absent field and an empty
join both fall back to the default. -/
def insightOr (o : Option (List (List Char))) : List Char :=
  match o with
  | none => "Not analyzed".toList
  | some l => if (joinComma l).isEmpty then "Not analyzed".toList else joinComma l

/-- JS `voice_architecture || "Not analyzed"`. -/
def voiceOr (o : Option (List Char)) : List Char :=
  match o with
  | none => "Not analyzed".toList
  | some v => if v.isEmpty then "Not analyzed".toList else v

/-- The strategic-insights section. -/
def strategicInsightsSection (an : Analysis) : List Char :=
  siChunk0 ++ insightOr an.content_taxonomy ++ siChunk1 ++ insightOr an.thematic_analysis ++
  siChunk2 ++ insightOr an.linguistic_patterns ++ siChunk3 ++ insightOr an.engagement_mechanics ++
  siChunk4 ++ insightOr an.untapped_opportunities ++ siChunk5 ++ voiceOr an.voice_architecture ++
  siChunk6

/-- Attachment lines of one post (`Photo:` and `Video:` entries). -/
def attachmentLines (p : TwitterPost) : List (List Char) :=
  p.photos.map (fun u => "Photo: ".toList ++ u) ++ p.videos.map (fun u => "Video: ".toList ++ u)

/-- One numbered line of the prior-posts block, ai.ts lines 107–119. -/
def postLine (idx : Nat) (p : TwitterPost) : List Char :=
  natToChars (idx + 1) ++ ". ".toList ++ p.text ++
    (if (attachmentLines p).isEmpty then []
     else "\n   Attachments:\n   - ".toList ++ joinSep ("\n   - ".toList) (attachmentLines p))

/-- The numbered lines of the first `maxPosts` posts, in order. -/
def postLines (i : Nat) : List TwitterPost → List (List Char)
  | [] => []
  | p :: rest => postLine i p :: postLines (i + 1) rest

/-- The prior-posts block `postsForPrompt` (ai.ts lines 105–120): only the
first `maxPosts` posts are included. -/
def postsForPrompt (posts : List TwitterPost) (maxPosts : Nat) : List Char :=
  joinSep ['\n'] (postLines 0 (posts.take maxPosts))

/-- Default value of `config.app.maxPostsForPrompt`
(src/config/index.ts line 19, environment default "50"). -/
def maxPostsForPromptDefault : Nat := 50

/-- The prompt assembled by `generatePostIdeas` (ai.ts lines 140–192). The
leading `prompts.generate.new_post_idea` text lives in a module that is not
among the sources at hand, so it is a parameter; nothing below depends on
its content. -/
def buildGenerationPrompt (newPostIdeaPrompt : List Char) (ud : UserData)
    (an : Analysis) (count : Nat) (maxPosts : Nat) : List Char :=
  newPostIdeaPrompt ++ "\n\n".toList ++ customInstructionsSection ud ++ gpChunk2 ++
  an.summary ++ gpChunk3 ++ joinComma an.key_themes ++ gpChunk4 ++
  joinComma an.engagement_patterns ++ gpChunk5 ++ an.tone ++ gpChunk6 ++
  postsForPrompt ud.posts maxPosts ++ "\n\n".toList ++ strategicInsightsSection an ++
  "\n".toList ++ communitiesSection ud ++ gpChunk9 ++ natToChars count ++ gpChunk10

/-! ## The public operations, with the model call made explicit

Each `generateText` call is replaced by an explicit `modelResponse`
argument standing for the text the model would return, together with a
returned Bool recording whether the call was reached. None of these three
methods writes to the data store (only `reanalyzeUser` does), so a store
value of arbitrary type is threaded through unchanged, which is what lets
the store-preservation parts of the claims be stated. -/

/-- `analyzeUser` (ai.ts lines 34–91): refuse zero posts before any model
call, otherwise call the model and run the analysis extractor. -/
def analyzeUser {σ : Type} (store : σ) (posts : List TwitterPost)
    (modelResponse : List Char) : Option Json × Bool × σ :=
  if posts.length = 0 then (none, false, store)
  else (parseAnalysisJson modelResponse, true, store)

/-- `generatePostIdeas` (ai.ts lines 93–215): precondition checks before the
model call, then extraction and the final `slice(0, count)`. -/
def generatePostIdeas {σ : Type} (store : σ) (ud : UserData) (count : Nat)
    (modelResponse : List Char) : Option (List PostIdea) × Bool × σ :=
  match ud.analysis with
  | none => (none, false, store)
  | some _ =>
      if ud.posts.isEmpty then (none, false, store)
      else (some ((parseJsonFromResponse modelResponse count).take count), true, store)

/-- `tweakPostIdea` (ai.ts lines 339–446): extract with `count = 3`, raise
unless exactly 3 drafts come back. -/
def tweakPostIdea {σ : Type} (store : σ) (modelResponse : List Char) :
    Option (List PostIdea) × σ :=
  let postIdeas := parseJsonFromResponse modelResponse 3
  (if postIdeas.length = 3 then some postIdeas else none, store)

/-! ## The documented wire JSON of a draft array, and spec-side notions -/

/-- Hexadecimal digit character of a value below 16. -/
def toHexChar (n : Nat) : Char :=
  if n < 10 then Char.ofNat ('0'.toNat + n) else Char.ofNat ('a'.toNat + n - 10)

/-- JSON escaping of one character for the serializer. -/
def escapeJsonChar (c : Char) : List Char :=
  if c = dquote then [bslash, dquote]
  else if c = bslash then [bslash, bslash]
  else if c = '\n' then [bslash, 'n']
  else if c = '\r' then [bslash, 'r']
  else if c = '\t' then [bslash, 't']
  else if c = Char.ofNat 8 then [bslash, 'b']
  else if c = Char.ofNat 12 then [bslash, 'f']
  else if c.toNat < 32 then
    [bslash, 'u', toHexChar (c.toNat / 4096 % 16), toHexChar (c.toNat / 256 % 16),
     toHexChar (c.toNat / 16 % 16), toHexChar (c.toNat % 16)]
  else [c]

/-- A JSON string literal for the serializer. -/
def renderStrChars (s : List Char) : List Char :=
  dquote :: ((s.map escapeJsonChar).flatten ++ [dquote])

/-- The documented wire JSON of one draft:
an object with the `text`, `community` and `reasoning` members. -/
def renderDraft (d : PostIdea) : List Char :=
  lbrace :: (renderStrChars ("text".toList) ++ ':' :: renderStrChars d.text ++
    ',' :: renderStrChars ("community".toList) ++ ':' ::
      (match d.community with
       | none => "null".toList
       | some c => renderStrChars c) ++
    ',' :: renderStrChars ("reasoning".toList) ++ ':' :: renderStrChars d.reasoning ++
    [rbrace])

/-- Comma-separated draft objects. -/
def renderDraftsBody : List PostIdea → List Char
  | [] => []
  | [d] => renderDraft d
  | d :: e :: rest => renderDraft d ++ ',' :: renderDraftsBody (e :: rest)

/-- The documented wire JSON of a draft array. -/
def renderDrafts (ds : List PostIdea) : List Char :=
  '[' :: (renderDraftsBody ds ++ [']'])

/-- The parsed-JSON value a draft serializes to. -/
def draftJson (d : PostIdea) : Json :=
  .obj [(textKey, .str d.text),
        (communityKey, match d.community with | none => .null | some c => .str c),
        (reasoningKey, .str d.reasoning)]

/-- A well-formed Draft object of the wire contract, together with the Draft
invariant: an object whose `text` member is a nonempty string carrying no
surrounding whitespace, whose `community` member is absent, null or a
string, and whose `reasoning` member is a nonempty string. -/
def wellFormedDraftJson (j : Json) : Bool :=
  match j with
  | .obj fs =>
      (match getField fs textKey with
       | some (.str t) => !t.isEmpty && decide (jsTrim t = t)
       | _ => false) &&
      ((match getField fs communityKey with
        | none => true
        | some .null => true
        | some (.str _) => true
        | _ => false) &&
       (match getField fs reasoningKey with
        | some (.str r) => !r.isEmpty
        | _ => false))
  | _ => false

/-- The draft denoted by a well-formed Draft object. -/
def denoteDraft (j : Json) : PostIdea :=
  match j with
  | .obj fs =>
      ⟨(match getField fs textKey with
        | some (.str t) => t
        | _ => []),
       (match getField fs communityKey with
        | some (.str c) => some c
        | _ => none),
       (match getField fs reasoningKey with
        | some (.str r) => r
        | _ => [])⟩
  | _ => ⟨[], none, []⟩

/-- Field content that survives the extraction layer unchanged: no closing
bracket (the lazy array regex would truncate there) and no backtick (the
fence pass could fire). -/
def noBadChars (l : List Char) : Bool :=
  l.all (fun c => !(c = ']') && !(c = btick))

/-- A draft whose wire form round-trips: nonempty trimmed text, nonempty
reasoning, and no truncating characters in any field. -/
def goodDraft (d : PostIdea) : Bool :=
  !d.text.isEmpty && (decide (jsTrim d.text = d.text) && (noBadChars d.text &&
  ((match d.community with | none => true | some c => noBadChars c) &&
  (!d.reasoning.isEmpty && noBadChars d.reasoning))))

/-- Candidates of the recovery stage after the length filter and the
cleaning step, before deduplication, in pattern-major order. -/
def cleanedCandidates (gs : List (List Char)) : List (List Char) :=
  gs.filterMap (fun g =>
    let t := jsTrim g
    if !t.isEmpty && (10 ≤ t.length && t.length ≤ 280)
    then some (jsTrim (unescapeFallback t)) else none)

/-- First-occurrence deduplication against an already-seen set. -/
def dedupSeen (seen : List (List Char)) : List (List Char) → List (List Char)
  | [] => []
  | x :: xs => if x ∈ seen then dedupSeen seen xs else x :: dedupSeen (x :: seen) xs

/-- Every text the recovery stage can recover from a response, in the order
it collects them: pattern-major, then match order, duplicates dropped. -/
def recoveredTexts (text : List Char) : List (List Char) :=
  dedupSeen [] (cleanedCandidates (patternGroups text).flatten)

/-! ## Helper lemmas: trimming -/

/-- A character that fails the predicate is never removed by `dropWhile`. -/
theorem mem_dropWhile_of_not {p : Char → Bool} {c : Char} :
    ∀ {l : List Char}, c ∈ l → p c = false → c ∈ l.dropWhile p := by
  intro l
  induction l with
  | nil => intro h; cases h
  | cons a t ih =>
      intro hmem hpc
      by_cases hpa : p a = true
      · rw [List.dropWhile_cons_of_pos hpa]
        rcases List.mem_cons.mp hmem with h | h
        · subst h; rw [hpc] at hpa; cases hpa
        · exact ih h hpc
      · rw [List.dropWhile_cons_of_neg hpa]
        exact hmem

/-- Trimming keeps any character that is not whitespace. -/
theorem jsTrim_ne_nil {l : List Char} {c : Char}
    (hmem : c ∈ l) (hc : isJsWs c = false) : jsTrim l ≠ [] := by
  intro hnil
  unfold jsTrim at hnil
  have h1 : c ∈ l.dropWhile isJsWs := mem_dropWhile_of_not hmem hc
  have h2 : c ∈ (l.dropWhile isJsWs).reverse := List.mem_reverse.mpr h1
  have h3 : c ∈ (l.dropWhile isJsWs).reverse.dropWhile isJsWs :=
    mem_dropWhile_of_not h2 hc
  rw [List.reverse_eq_nil_iff.mp hnil] at h3
  cases h3

/-- The head of a `dropWhile` result fails the predicate. -/
theorem dropWhile_cons_head {p : Char → Bool} :
    ∀ {l : List Char} {c : Char} {r : List Char}, l.dropWhile p = c :: r → p c = false := by
  intro l
  induction l with
  | nil => intro c r h; cases h
  | cons a t ih =>
      intro c r h
      by_cases hpa : p a = true
      · rw [List.dropWhile_cons_of_pos hpa] at h
        exact ih h
      · rw [List.dropWhile_cons_of_neg hpa] at h
        cases h
        exact Bool.not_eq_true _ ▸ (by simpa using hpa)

/-- The first character of a nonempty trimmed string is not whitespace. -/
theorem jsTrim_cons_head {l : List Char} {c : Char} {r : List Char}
    (h : jsTrim l = c :: r) : isJsWs c = false := by
  unfold jsTrim at h
  set d := l.dropWhile isJsWs with hd
  have hsuff : ∃ t, d.reverse = t ++ (c :: r).reverse := by
    rcases (List.dropWhile_suffix (l := d.reverse) (p := isJsWs)) with ⟨t, ht⟩
    refine ⟨t, ?_⟩
    rw [← ht]
    congr 1
    rw [← h, List.reverse_reverse]
  rcases hsuff with ⟨t, ht⟩
  have hdd : d = c :: (r ++ t.reverse) := by
    have := congrArg List.reverse ht
    rw [List.reverse_reverse, List.reverse_append, List.reverse_reverse] at this
    simpa using this
  exact dropWhile_cons_head (hd ▸ hdd)

/-- Trimming never lengthens a string. -/
theorem jsTrim_length_le (l : List Char) : (jsTrim l).length ≤ l.length := by
  unfold jsTrim
  calc ((l.dropWhile isJsWs).reverse.dropWhile isJsWs).reverse.length
      = ((l.dropWhile isJsWs).reverse.dropWhile isJsWs).length := List.length_reverse _
    _ ≤ (l.dropWhile isJsWs).reverse.length := (List.dropWhile_sublist _).length_le
    _ = (l.dropWhile isJsWs).length := List.length_reverse _
    _ ≤ l.length := (List.dropWhile_sublist _).length_le

/-- A string whose two end characters are not whitespace trims to itself;
stated for the bracketed shape the serializer produces. -/
theorem jsTrim_ends {a b : Char} (xs : List Char)
    (ha : isJsWs a = false) (hb : isJsWs b = false) :
    jsTrim (a :: (xs ++ [b])) = a :: (xs ++ [b]) := by
  unfold jsTrim
  rw [List.dropWhile_cons_of_neg (by simp [ha])]
  have hrev : (a :: (xs ++ [b])).reverse = b :: (xs.reverse ++ [a]) := by
    simp
  rw [hrev, List.dropWhile_cons_of_neg (by simp [hb]), ← hrev, List.reverse_reverse]

/-! ## Helper lemmas: the unescaping passes -/

/-- One replacement pass never lengthens the string. -/
theorem replacePair_length_le (a b r : Char) :
    ∀ l : List Char, (replacePair a b r l).length ≤ l.length := by
  intro l
  induction l using replacePair.induct a b r with
  | case1 x y rest hxy ih =>
      rw [replacePair]
      simp only [if_pos hxy, List.length_cons]
      have := ih
      simp at this ⊢
      omega
  | case2 x y rest hxy ih =>
      rw [replacePair]
      simp only [if_neg hxy, List.length_cons]
      simpa using ih
  | case3 l h =>
      cases l with
      | nil => simp [replacePair]
      | cons x t =>
          cases t with
          | nil => simp [replacePair]
          | cons y u => exact absurd rfl (h x y u)

/-- One replacement pass keeps the string shape `z :: t`, with the new head
either the replacement character or the old head. -/
theorem replacePair_cons (a b r x : Char) (t : List Char) :
    ∃ z t1, replacePair a b r (x :: t) = z :: t1 ∧ (z = r ∨ z = x) := by
  cases t with
  | nil => exact ⟨x, [], by simp [replacePair], Or.inr rfl⟩
  | cons y u =>
      by_cases hxy : x = a ∧ y = b
      · exact ⟨r, replacePair a b r u, by rw [replacePair, if_pos hxy], Or.inl rfl⟩
      · exact ⟨x, replacePair a b r (y :: u), by rw [replacePair, if_neg hxy], Or.inr rfl⟩

/-- The replacement characters of the three unescaping passes are not
whitespace, so unescaping a string with a non-whitespace head yields a
string with a non-whitespace head. -/
theorem unescapeFallback_cons {x : Char} {t : List Char} (hx : isJsWs x = false) :
    ∃ z t1, unescapeFallback (x :: t) = z :: t1 ∧ isJsWs z = false := by
  have hq : isJsWs dquote = false := by decide
  have hs : isJsWs squote = false := by decide
  have hbs : isJsWs bslash = false := by decide
  unfold unescapeFallback
  rcases replacePair_cons bslash dquote dquote x t with ⟨z1, t1, he1, hz1⟩
  rw [he1]
  have hz1ws : isJsWs z1 = false := by rcases hz1 with h | h <;> subst h <;> assumption
  rcases replacePair_cons bslash squote squote z1 t1 with ⟨z2, t2, he2, hz2⟩
  rw [he2]
  have hz2ws : isJsWs z2 = false := by rcases hz2 with h | h <;> subst h <;> assumption
  rcases replacePair_cons bslash bslash bslash z2 t2 with ⟨z3, t3, he3, hz3⟩
  rw [he3]
  refine ⟨z3, t3, rfl, ?_⟩
  rcases hz3 with h | h <;> subst h <;> assumption

/-- Unescaping never lengthens the string. -/
theorem unescapeFallback_length_le (l : List Char) :
    (unescapeFallback l).length ≤ l.length := by
  unfold unescapeFallback
  calc (replacePair bslash bslash bslash
          (replacePair bslash squote squote (replacePair bslash dquote dquote l))).length
      ≤ (replacePair bslash squote squote (replacePair bslash dquote dquote l)).length :=
        replacePair_length_le _ _ _ _
    _ ≤ (replacePair bslash dquote dquote l).length := replacePair_length_le _ _ _ _
    _ ≤ l.length := replacePair_length_le _ _ _ _

/-! ## Helper lemmas: deduplication and the collection loop -/

/-- Deduplication only emits elements of its input. -/
theorem mem_dedupSeen {x : List Char} :
    ∀ {xs : List (List Char)} {seen : List (List Char)},
      x ∈ dedupSeen seen xs → x ∈ xs := by
  intro xs
  induction xs with
  | nil => intro seen h; cases h
  | cons y ys ih =>
      intro seen h
      rw [dedupSeen] at h
      by_cases hy : y ∈ seen
      · rw [if_pos hy] at h
        exact List.mem_cons_of_mem _ (ih h)
      · rw [if_neg hy] at h
        rcases List.mem_cons.mp h with h1 | h1
        · exact h1 ▸ List.mem_cons_self _ _
        · exact List.mem_cons_of_mem _ (ih h1)

/-- Deduplication emits nothing from the seen set and emits no duplicates. -/
theorem dedupSeen_nodup :
    ∀ (xs seen : List (List Char)),
      (dedupSeen seen xs).Nodup ∧ ∀ x ∈ dedupSeen seen xs, x ∉ seen := by
  intro xs
  induction xs with
  | nil => intro seen; exact ⟨List.nodup_nil, by intro x h; cases h⟩
  | cons y ys ih =>
      intro seen
      rw [dedupSeen]
      by_cases hy : y ∈ seen
      · rw [if_pos hy]
        exact ih seen
      · rw [if_neg hy]
        rcases ih (y :: seen) with ⟨hnd, hns⟩
        constructor
        · refine List.nodup_cons.mpr ⟨?_, hnd⟩
          intro hmem
          exact hns y hmem (List.mem_cons_self _ _)
        · intro x hx
          rcases List.mem_cons.mp hx with h1 | h1
          · exact h1 ▸ hy
          · intro hxs
            exact hns x h1 (List.mem_cons_of_mem _ hxs)

/-- Deduplication only consults the seen set through membership. -/
theorem dedupSeen_congr :
    ∀ (xs seen1 seen2 : List (List Char)),
      (∀ x, x ∈ seen1 ↔ x ∈ seen2) → dedupSeen seen1 xs = dedupSeen seen2 xs := by
  intro xs
  induction xs with
  | nil => intro seen1 seen2 _; rfl
  | cons y ys ih =>
      intro seen1 seen2 hiff
      rw [dedupSeen, dedupSeen]
      by_cases hy : y ∈ seen1
      · rw [if_pos hy, if_pos ((hiff y).mp hy)]
        exact ih _ _ hiff
      · rw [if_neg hy, if_neg (fun h => hy ((hiff y).mpr h))]
        congr 1
        refine ih _ _ ?_
        intro x
        constructor
        · intro h
          rcases List.mem_cons.mp h with h1 | h1
          · exact h1 ▸ List.mem_cons_self _ _
          · exact List.mem_cons_of_mem _ ((hiff x).mp h1)
        · intro h
          rcases List.mem_cons.mp h with h1 | h1
          · exact h1 ▸ List.mem_cons_self _ _
          · exact List.mem_cons_of_mem _ ((hiff x).mpr h1)

/-- The collection loop, characterized: starting from any accumulator it
appends the cleaned, deduplicated candidates, truncated to the room left. -/
theorem collectGroups_spec (count : Nat) :
    ∀ (gs : List (List Char)) (acc : List PostIdea),
      collectGroups count acc gs =
        acc ++ ((dedupSeen (acc.map PostIdea.text) (cleanedCandidates gs)).take
          (count - acc.length)).map mkFallbackIdea := by
  intro gs
  induction gs with
  | nil => intro acc; simp [collectGroups, cleanedCandidates, dedupSeen]
  | cons g gs ih =>
      intro acc
      rw [collectGroups]
      by_cases hc : count ≤ acc.length
      · rw [if_pos hc, Nat.sub_eq_zero_of_le hc]
        simp
      · rw [if_neg hc]
        by_cases hf : (!(jsTrim g).isEmpty &&
            (10 ≤ (jsTrim g).length && (jsTrim g).length ≤ 280)) = true
        · rw [if_pos hf]
          have hcc : cleanedCandidates (g :: gs) =
              jsTrim (unescapeFallback (jsTrim g)) :: cleanedCandidates gs := by
            rw [cleanedCandidates, List.filterMap_cons]
            simp only [hf]
            rfl
          set clean := jsTrim (unescapeFallback (jsTrim g)) with hclean
          by_cases hmem : clean ∈ acc.map PostIdea.text
          · have hany : (acc.any fun i => i.text = clean) = true := by
              rw [List.any_eq_true]
              rcases List.mem_map.mp hmem with ⟨i, hi, hieq⟩
              exact ⟨i, hi, by simp [hieq]⟩
            rw [if_pos hany, hcc, dedupSeen, if_pos hmem]
            exact ih acc
          · have hany : (acc.any fun i => i.text = clean) = false := by
              rw [List.any_eq_false]
              intro i hi
              simp only [decide_eq_true_eq]
              intro hieq
              exact hmem (List.mem_map.mpr ⟨i, hi, hieq⟩)
            rw [if_neg (by simp [hany]), hcc, dedupSeen, if_neg hmem]
            rw [ih (acc ++ [mkFallbackIdea clean])]
            have hlen : count - acc.length = (count - (acc ++ [mkFallbackIdea clean]).length) + 1 := by
              simp only [List.length_append, List.length_cons, List.length_nil]
              omega
            rw [hlen, List.take_succ_cons]
            have hseen : dedupSeen ((acc ++ [mkFallbackIdea clean]).map PostIdea.text)
                (cleanedCandidates gs) =
                dedupSeen (clean :: acc.map PostIdea.text) (cleanedCandidates gs) := by
              refine dedupSeen_congr _ _ _ ?_
              intro x
              simp [mkFallbackIdea, or_comm]
            rw [hseen]
            simp
        · rw [if_neg hf]
          have hcc : cleanedCandidates (g :: gs) = cleanedCandidates gs := by
            rw [cleanedCandidates, List.filterMap_cons]
            simp only [hf]
            rfl
          rw [hcc]
          exact ih acc

/-- A full accumulator absorbs any further groups. -/
theorem collectGroups_of_full {count : Nat} {acc : List PostIdea}
    (h : count ≤ acc.length) : ∀ gs, collectGroups count acc gs = acc := by
  intro gs
  induction gs with
  | nil => rfl
  | cons g gs ih => rw [collectGroups, if_pos h]

/-- Collecting a concatenation is collecting in two runs. -/
theorem collectGroups_append (count : Nat) :
    ∀ (gs1 gs2 : List (List Char)) (acc : List PostIdea),
      collectGroups count acc (gs1 ++ gs2) =
        collectGroups count (collectGroups count acc gs1) gs2 := by
  intro gs1
  induction gs1 with
  | nil => intro gs2 acc; rfl
  | cons g gs ih =>
      intro gs2 acc
      rw [List.cons_append, collectGroups, collectGroups]
      by_cases hc : count ≤ acc.length
      · rw [if_pos hc, if_pos hc, collectGroups_of_full hc]
      · rw [if_neg hc, if_neg hc]
        by_cases hf : (!(jsTrim g).isEmpty &&
            (10 ≤ (jsTrim g).length && (jsTrim g).length ≤ 280)) = true
        · rw [if_pos hf, if_pos hf]
          by_cases hany : (acc.any fun i => i.text = jsTrim (unescapeFallback (jsTrim g))) = true
          · rw [if_pos hany, if_pos hany, ih]
          · rw [if_neg (by simp_all), if_neg (by simp_all), ih]
        · rw [if_neg hf, if_neg hf, ih]

/-- The pattern loop is one collection run over the concatenated groups. -/
theorem fallbackCollect_eq (text : List Char) (count : Nat) :
    fallbackCollect text count =
      ((recoveredTexts text).take count).map mkFallbackIdea := by
  have hfold : ∀ (pgs : List (List (List Char))) (acc : List PostIdea),
      pgs.foldl (fun acc gs => if count ≤ acc.length then acc else collectGroups count acc gs) acc =
        collectGroups count acc pgs.flatten := by
    intro pgs
    induction pgs with
    | nil => intro acc; rfl
    | cons gs pgs ih =>
        intro acc
        rw [List.foldl_cons, List.flatten_cons, collectGroups_append]
        by_cases hc : count ≤ acc.length
        · rw [if_pos hc, collectGroups_of_full hc, ih]
        · rw [if_neg hc, ih]
  rw [fallbackCollect, hfold, collectGroups_spec]
  simp [recoveredTexts]

/-- Every recovered text is nonempty and at most 280 characters long. The
lower bound 10 of the collection filter applies to the candidate BEFORE
unescaping, so it does not survive to the recovered text. -/
theorem mem_recoveredTexts {x text : List Char}
    (h : x ∈ recoveredTexts text) : x ≠ [] ∧ x.length ≤ 280 := by
  have h1 : x ∈ cleanedCandidates (patternGroups text).flatten := mem_dedupSeen h
  rcases List.mem_filterMap.mp h1 with ⟨g, _, hx⟩
  dsimp only at hx
  by_cases hf : (!(jsTrim g).isEmpty && (10 ≤ (jsTrim g).length && (jsTrim g).length ≤ 280)) = true
  · rw [if_pos hf] at hx
    have hf1 := hf
    simp only [Bool.and_eq_true] at hf1
    obtain ⟨hne, _, h280⟩ := hf1
    have h280n : (jsTrim g).length ≤ 280 := by simpa using h280
    rcases htg : jsTrim g with _ | ⟨c, r⟩
    · rw [htg] at hne; simp at hne
    · have hcws : isJsWs c = false := jsTrim_cons_head htg
      rcases unescapeFallback_cons (t := r) hcws with ⟨z, t1, hu, hz⟩
      rw [htg, hu] at hx
      have hxe : jsTrim (z :: t1) = x := Option.some.inj hx
      constructor
      · rw [← hxe]
        exact jsTrim_ne_nil (List.mem_cons_self _ _) hz
      · have hxl : x.length ≤ (z :: t1).length := by
          rw [← hxe]; exact jsTrim_length_le _
        have hul : (z :: t1).length ≤ (c :: r).length := by
          rw [← hu]; exact unescapeFallback_length_le _
        have : (c :: r).length = (jsTrim g).length := by rw [htg]
        omega
  · rw [if_neg hf] at hx
    cases hx

/-- Recovered texts are pairwise distinct. -/
theorem recoveredTexts_nodup (text : List Char) : (recoveredTexts text).Nodup :=
  (dedupSeen_nodup _ _).1

/-! ## Helper lemmas: stage-1 validation -/

/-- A well-formed Draft object validates to the draft it denotes. -/
theorem validateIdea_of_wellFormed {j : Json} (h : wellFormedDraftJson j = true) :
    validateIdea j = some (denoteDraft j) := by
  cases j with
  | obj fs =>
      rw [wellFormedDraftJson] at h
      rcases htf : getField fs textKey with _ | jt
      · rw [htf] at h; simp at h
      · rw [htf] at h
        cases jt with
        | str t =>
            simp only [Bool.and_eq_true] at h
            obtain ⟨⟨hne, htrim⟩, h2, h3⟩ := h
            have htrim1 : jsTrim t = t := of_decide_eq_true htrim
            have hnem : t.isEmpty = false := by simpa using hne
            rcases hcf : getField fs communityKey with _ | jc
            · rcases hrf : getField fs reasoningKey with _ | jr
              · rw [hrf] at h3; simp at h3
              · cases jr with
                | str r =>
                    rw [hrf] at h3
                    have hrne : r.isEmpty = false := by simpa using h3
                    simp [validateIdea, denoteDraft, htf, hcf, hrf, hnem, hrne,
                      truthy, jsToString, htrim1]
                | null => rw [hrf] at h3; simp [truthy] at h3
                | bool b => rw [hrf] at h3; simp [truthy] at h3
                | num m e => rw [hrf] at h3; simp [truthy] at h3
                | arr a => rw [hrf] at h3; simp [truthy] at h3
                | obj o => rw [hrf] at h3; simp [truthy] at h3
            · rcases hrf : getField fs reasoningKey with _ | jr
              · rw [hrf] at h3; simp at h3
              · rw [hcf] at h2
                cases jc with
                | bool b => simp at h2
                | num m e => simp at h2
                | arr a => simp at h2
                | obj o => simp at h2
                | null =>
                    cases jr with
                    | str r =>
                        rw [hrf] at h3
                        have hrne : r.isEmpty = false := by simpa using h3
                        simp [validateIdea, denoteDraft, htf, hcf, hrf, hnem, hrne,
                          truthy, jsToString, htrim1]
                    | null => rw [hrf] at h3; simp [truthy] at h3
                    | bool b => rw [hrf] at h3; simp [truthy] at h3
                    | num m e => rw [hrf] at h3; simp [truthy] at h3
                    | arr a => rw [hrf] at h3; simp [truthy] at h3
                    | obj o => rw [hrf] at h3; simp [truthy] at h3
                | str c =>
                    cases jr with
                    | str r =>
                        rw [hrf] at h3
                        have hrne : r.isEmpty = false := by simpa using h3
                        simp [validateIdea, denoteDraft, htf, hcf, hrf, hnem, hrne,
                          truthy, jsToString, htrim1]
                    | null => rw [hrf] at h3; simp [truthy] at h3
                    | bool b => rw [hrf] at h3; simp [truthy] at h3
                    | num m e => rw [hrf] at h3; simp [truthy] at h3
                    | arr a => rw [hrf] at h3; simp [truthy] at h3
                    | obj o => rw [hrf] at h3; simp [truthy] at h3
        | null => simp at h
        | bool b => simp at h
        | num m e => simp at h
        | arr a => simp at h
        | obj o => simp at h
  | null => simp [wellFormedDraftJson] at h
  | bool b => simp [wellFormedDraftJson] at h
  | num m e => simp [wellFormedDraftJson] at h
  | str s => simp [wellFormedDraftJson] at h
  | arr a => simp [wellFormedDraftJson] at h

/-- Validating a list of well-formed elements yields their denotations. -/
theorem mapM_validate_of_wellFormed :
    ∀ (items : List Json), (∀ j ∈ items, wellFormedDraftJson j = true) →
      items.mapM validateIdea = some (items.map denoteDraft) := by
  intro items
  induction items with
  | nil => intro _; rfl
  | cons j js ih =>
      intro h
      rw [← List.mapM'_eq_mapM, List.mapM']
      rw [validateIdea_of_wellFormed (h j (List.mem_cons_self _ _))]
      rw [List.mapM'_eq_mapM, ih (fun x hx => h x (List.mem_cons_of_mem _ hx))]
      rfl

/-- One invalid element anywhere makes the whole validation fail. -/
theorem mapM_validate_none :
    ∀ (items : List Json), (∃ j ∈ items, validateIdea j = none) →
      items.mapM validateIdea = none := by
  intro items
  induction items with
  | nil => intro h; rcases h with ⟨j, hj, _⟩; cases hj
  | cons j js ih =>
      intro h
      rw [← List.mapM'_eq_mapM, List.mapM']
      rcases h with ⟨i, hi, hvi⟩
      rcases List.mem_cons.mp hi with h1 | h1
      · subst h1
        rw [hvi]
        rfl
      · cases hv : validateIdea j with
        | none => rfl
        | some d =>
            rw [List.mapM'_eq_mapM, ih ⟨i, h1, hvi⟩]
            rfl

/-- A successful validation run preserves the element count. -/
theorem mapM_validate_length :
    ∀ (items : List Json) (l : List PostIdea),
      items.mapM validateIdea = some l → l.length = items.length := by
  intro items
  induction items with
  | nil =>
      intro l h
      rw [← List.mapM'_eq_mapM, List.mapM'] at h
      cases h
      rfl
  | cons j js ih =>
      intro l h
      rw [← List.mapM'_eq_mapM, List.mapM'] at h
      cases hv : validateIdea j with
      | none => rw [hv] at h; cases h
      | some d =>
          rw [hv] at h
          cases hrest : js.mapM validateIdea with
          | none => rw [← List.mapM'_eq_mapM] at hrest; rw [hrest] at h; cases h
          | some ds =>
              rw [← List.mapM'_eq_mapM] at hrest
              rw [hrest] at h
              cases h
              simp [ih ds (by rw [← List.mapM'_eq_mapM]; exact hrest)]

end Postgeist

namespace Postgeist

/-! ## Claim C9 -/

/-- C9 (confirmed): calling analyze with zero posts, or profile generation
on a profile without a stored analysis, raises its precondition error before
any model call: the model-called flag is false, the result is the error, and
the store is unchanged. -/
theorem preconditionGuards {σ : Type} (store : σ) (resp : List Char)
    (ud : UserData) (count : Nat) (hud : ud.analysis = none) :
    analyzeUser store [] resp = (none, false, store) ∧
    generatePostIdeas store ud count resp = (none, false, store) :=
  ⟨rfl, by simp only [generatePostIdeas, hud]⟩

/-- Witness for C9 at a concrete store, profile and response. -/
theorem preconditionGuards_witness :
    analyzeUser (0 : Nat) [] ("resp".toList) = (none, false, 0) ∧
    generatePostIdeas (0 : Nat) ⟨"u".toList, [], none, none, none⟩ 10 ("resp".toList) =
      (none, false, 0) :=
  preconditionGuards 0 ("resp".toList) ⟨"u".toList, [], none, none, none⟩ 10 rfl

/-! ## Claim C7 -/

/-- C7 (amended): tweak either raises or returns exactly 3 drafts and never
writes the store; whenever the extractor hands back a list of length other
than 3 — as it does on a model response holding only 2 valid Draft objects —
tweak raises. Well-formedness (nonempty text) of each returned draft is not
guaranteed; see the counterexample. -/
theorem tweakExactlyThree {σ : Type} (store : σ) (resp : List Char) :
    (∀ l, (tweakPostIdea store resp).1 = some l → l.length = 3) ∧
    (tweakPostIdea store resp).2 = store ∧
    ((parseJsonFromResponse resp 3).length ≠ 3 → (tweakPostIdea store resp).1 = none) := by
  refine ⟨?_, rfl, ?_⟩
  · intro l hl
    simp only [tweakPostIdea] at hl
    split at hl
    · cases hl
      assumption
    · cases hl
  · intro hne
    simp only [tweakPostIdea, if_neg hne]

set_option maxRecDepth 8000 in
/-- Witness for C7: a model response carrying exactly 2 valid Draft objects
makes the extractor return 2 drafts, so tweak raises. -/
theorem tweakExactlyThree_witness :
    (parseJsonFromResponse ("[\x7b\"text\":\"first variation here\",\"community\":null,\"reasoning\":\"a\"\x7d,\x7b\"text\":\"second variation here\",\"community\":null,\"reasoning\":\"b\"\x7d]".toList) 3).length ≠ 3 ∧
    (tweakPostIdea (0 : Nat) ("[\x7b\"text\":\"first variation here\",\"community\":null,\"reasoning\":\"a\"\x7d,\x7b\"text\":\"second variation here\",\"community\":null,\"reasoning\":\"b\"\x7d]".toList)).1 = none :=
  ⟨by decide,
   (tweakExactlyThree (0 : Nat) _).2.2 (by decide)⟩

set_option maxRecDepth 8000 in
/-- Counterexample to C7 as stated: on an array of 3 objects whose first
`text` is the one-space string, tweak returns 3 drafts without raising, and
the first returned draft has EMPTY text — not a well-formed Draft. -/
theorem tweakExactlyThree_cex :
    (tweakPostIdea (0 : Nat) ("[\x7b\"text\":\" \",\"community\":null,\"reasoning\":\"a\"\x7d,\x7b\"text\":\"b ok\",\"community\":null,\"reasoning\":\"b\"\x7d,\x7b\"text\":\"c ok\",\"community\":null,\"reasoning\":\"c\"\x7d]".toList)).1 =
      some [⟨[], none, "a".toList⟩, ⟨"b ok".toList, none, "b".toList⟩,
        ⟨"c ok".toList, none, "c".toList⟩] := by
  decide

/-! ## Claim C5 -/

/-- C5 (amended): the analysis extractor raises exactly when one of
`summary`, `key_themes`, `tone` is absent or falsy on the extracted object;
only presence-and-truthiness is checked, so `key_themes` is NOT required to
be a non-empty array (an empty array is truthy in JS and is accepted), and
an otherwise-valid object carrying only truthy mandatory fields never
raises. -/
theorem analysisFieldCheck (text : List Char) (p : Json)
    (hp : parseJson (extractObjString (replaceFencePass lbrace rbrace
        (jsTrim text).length (jsTrim text))) = some p) :
    parseAnalysisJson text =
      (if truthyField p ("summary".toList) && (truthyField p ("key_themes".toList) &&
          truthyField p ("tone".toList)) then some p else none) := by
  simp only [parseAnalysisJson, hp]

/-- Witness for C5 at an object carrying only the mandatory fields. -/
theorem analysisFieldCheck_witness :
    parseAnalysisJson ("\x7b\"summary\":\"s\",\"key_themes\":[\"a\"],\"tone\":\"t\"\x7d".toList) =
      (if truthyField (.obj [("summary".toList, .str ("s".toList)),
            ("key_themes".toList, .arr [.str ("a".toList)]),
            ("tone".toList, .str ("t".toList))]) ("summary".toList) &&
          (truthyField (.obj [("summary".toList, .str ("s".toList)),
            ("key_themes".toList, .arr [.str ("a".toList)]),
            ("tone".toList, .str ("t".toList))]) ("key_themes".toList) &&
          truthyField (.obj [("summary".toList, .str ("s".toList)),
            ("key_themes".toList, .arr [.str ("a".toList)]),
            ("tone".toList, .str ("t".toList))]) ("tone".toList))
       then some (.obj [("summary".toList, .str ("s".toList)),
            ("key_themes".toList, .arr [.str ("a".toList)]),
            ("tone".toList, .str ("t".toList))]) else none) :=
  analysisFieldCheck _ _ rfl

/-- Counterexample to C5 as stated: an object whose `key_themes` is the
EMPTY array — which the claim requires to raise — is accepted without
raising. -/
theorem analysisFieldCheck_cex :
    parseJson ("\x7b\"summary\":\"s\",\"key_themes\":[],\"tone\":\"t\"\x7d".toList) =
      some (.obj [("summary".toList, .str ("s".toList)), ("key_themes".toList, .arr []),
        ("tone".toList, .str ("t".toList))]) ∧
    (parseAnalysisJson ("\x7b\"summary\":\"s\",\"key_themes\":[],\"tone\":\"t\"\x7d".toList)).isSome =
      true :=
  ⟨rfl, rfl⟩

/-! ## Claim C2 -/

/-- C2 (amended): on raw text in which the array regex finds no bracket span
and no recovery pattern matches anything, the extractor returns the
emergency posts truncated to `count` — that is min(count, 5) drafts, NOT
always `count` of them — each with nonempty text under 280 characters and
the emergency reasoning marker. The path is a total function of the model
text (never raises). -/
theorem emergencyFallbackShape (text : List Char) (count : Nat)
    (hb : firstBracketSpan (replaceFencePass '[' ']'
        (jsTrim text).length (jsTrim text)) = none)
    (hpats : ∀ gs ∈ patternGroups text, gs = []) :
    parseJsonFromResponse text count =
      (emergencyPosts.take count).map (fun t => ⟨t, none, emergencyReasoningText⟩) ∧
    (parseJsonFromResponse text count).length = min count 5 ∧
    ∀ d ∈ parseJsonFromResponse text count,
      d.text ≠ [] ∧ d.text.length < 280 ∧ d.reasoning = emergencyReasoningText := by
  have hstage1 : parseStage1 text count = none := by
    simp only [parseStage1, hb]
  have hflat : (patternGroups text).flatten = [] := by
    rcases hpg : patternGroups text with _ | ⟨g1, t1⟩
    · rfl
    · rw [List.flatten_eq_nil_iff]
      intro l hl
      rw [← hpg] at hl
      exact hpats l hl
  have hrec : recoveredTexts text = [] := by
    rw [recoveredTexts, hflat]
    rfl
  have hcol : fallbackCollect text count = [] := by
    rw [fallbackCollect_eq, hrec]
    simp
  have hmain : parseJsonFromResponse text count =
      (emergencyPosts.take count).map (fun t => ⟨t, none, emergencyReasoningText⟩) := by
    rw [parseJsonFromResponse, hstage1, fallbackParsePostIdeas, hcol]
    rfl
  have hemlen : emergencyPosts.length = 5 := rfl
  have hall : ∀ t ∈ emergencyPosts, t ≠ [] ∧ t.length < 280 := by decide
  refine ⟨hmain, ?_, ?_⟩
  · rw [hmain]
    simp [hemlen]
  · intro d hd
    rw [hmain] at hd
    rcases List.mem_map.mp hd with ⟨t, ht, rfl⟩
    have htm : t ∈ emergencyPosts := List.take_subset _ _ ht
    exact ⟨(hall t htm).1, (hall t htm).2, rfl⟩

/-- Witness for C2: a two-character response with no bracket and no
pattern match, at count 7, yields the 5 emergency drafts. -/
theorem emergencyFallbackShape_witness :
    parseJsonFromResponse ("xy".toList) 7 =
      (emergencyPosts.take 7).map (fun t => ⟨t, none, emergencyReasoningText⟩) ∧
    (parseJsonFromResponse ("xy".toList) 7).length = min 7 5 ∧
    ∀ d ∈ parseJsonFromResponse ("xy".toList) 7,
      d.text ≠ [] ∧ d.text.length < 280 ∧ d.reasoning = emergencyReasoningText :=
  emergencyFallbackShape ("xy".toList) 7 (by rfl) (by decide)

/-- Counterexample to C2 as stated: the same input at count 7 returns 5
drafts, not the 7 the claim requires. -/
theorem emergencyFallbackShape_cex :
    firstBracketSpan (replaceFencePass '[' ']'
        (jsTrim ("xy".toList)).length (jsTrim ("xy".toList))) = none ∧
    (∀ gs ∈ patternGroups ("xy".toList), gs = []) ∧
    (parseJsonFromResponse ("xy".toList) 7).length = 5 ∧ (5 : Nat) ≠ 7 :=
  ⟨by rfl, by decide, by decide, by decide⟩

end Postgeist

namespace Postgeist

/-! ## Claim C1 -/

/-- C1 (amended): when the first bracket-to-bracket span of the trimmed,
fence-stripped response text parses as a JSON array whose first `count`
elements are well-formed Draft objects, the extractor returns exactly
min(count, length) drafts denoting those elements, in array order, for every
count in 1..20. The original claim — for every text merely CONTAINING a
valid Draft array — fails, because the lazy regex span can pick up an
earlier bracket pair instead; see the counterexample. -/
theorem strictSpanExtraction (text : List Char) (count : Nat) (m : List Char)
    (items : List Json)
    (_hc1 : 1 ≤ count) (_hc2 : count ≤ 20)
    (hm : firstBracketSpan (replaceFencePass '[' ']'
        (jsTrim text).length (jsTrim text)) = some m)
    (hp : parseJson m = some (.arr items)) (hne : items ≠ [])
    (hwf : ∀ j ∈ items.take count, wellFormedDraftJson j = true) :
    parseJsonFromResponse text count = (items.take count).map denoteDraft ∧
    (parseJsonFromResponse text count).length = min count items.length := by
  have hstage : parseStage1 text count = some ((items.take count).map denoteDraft) := by
    simp only [parseStage1, hm, hp]
    rw [if_neg (by simpa using hne)]
    exact mapM_validate_of_wellFormed _ hwf
  have hmain : parseJsonFromResponse text count = (items.take count).map denoteDraft := by
    rw [parseJsonFromResponse, hstage]
  refine ⟨hmain, ?_⟩
  rw [hmain]
  simp

set_option maxRecDepth 8000 in
/-- Witness for C1 at a clean single-object array response and count 2. -/
theorem strictSpanExtraction_witness :
    parseJsonFromResponse ("[\x7b\"text\":\"hello there friend\",\"community\":null,\"reasoning\":\"good\"\x7d]".toList) 2 =
      ([Json.obj [("text".toList, .str ("hello there friend".toList)),
         ("community".toList, .null),
         ("reasoning".toList, .str ("good".toList))]].take 2).map denoteDraft ∧
    (parseJsonFromResponse ("[\x7b\"text\":\"hello there friend\",\"community\":null,\"reasoning\":\"good\"\x7d]".toList) 2).length =
      min 2 1 :=
  strictSpanExtraction _ 2 _ _ (by decide) (by decide) rfl rfl (List.cons_ne_nil _ _) (by decide)

set_option maxRecDepth 8000 in
/-- Counterexample to C1 as stated: this text CONTAINS a syntactically valid
JSON array holding one well-formed Draft object, count 1 lies in 1..20, yet
the extractor does not return that draft (the lazy span grabs the earlier
bracket pair, strict parsing dies, and regex recovery tags the result with
its own reasoning). -/
theorem strictSpanExtraction_cex :
    "[a] [\x7b\"text\":\"hello world here we go\",\"community\":null,\"reasoning\":\"r\"\x7d]".toList =
      "[a] ".toList ++ "[\x7b\"text\":\"hello world here we go\",\"community\":null,\"reasoning\":\"r\"\x7d]".toList ++ [] ∧
    parseJson ("[\x7b\"text\":\"hello world here we go\",\"community\":null,\"reasoning\":\"r\"\x7d]".toList) =
      some (.arr [Json.obj [("text".toList, .str ("hello world here we go".toList)),
        ("community".toList, .null), ("reasoning".toList, .str ("r".toList))]]) ∧
    wellFormedDraftJson (Json.obj [("text".toList, .str ("hello world here we go".toList)),
        ("community".toList, .null), ("reasoning".toList, .str ("r".toList))]) = true ∧
    parseJsonFromResponse ("[a] [\x7b\"text\":\"hello world here we go\",\"community\":null,\"reasoning\":\"r\"\x7d]".toList) 1 ≠
      [denoteDraft (Json.obj [("text".toList, .str ("hello world here we go".toList)),
        ("community".toList, .null), ("reasoning".toList, .str ("r".toList))])] :=
  ⟨by decide, rfl, by decide, by decide⟩

/-! ## Claim C6 -/

/-- C6 (amended): only the first `count` elements of the parsed array are
validated; one invalid element AMONG THOSE makes strict extraction fail
entirely and fall through to regex recovery. Elements beyond `count` are
sliced away before validation and are never checked — an invalid element
there does not abort stage 1, contrary to the original claim; see the
counterexample. -/
theorem validationWindow (text : List Char) (count : Nat) (m : List Char)
    (items : List Json)
    (hm : firstBracketSpan (replaceFencePass '[' ']'
        (jsTrim text).length (jsTrim text)) = some m)
    (hp : parseJson m = some (.arr items)) (hne : items ≠ [])
    (hbad : ∃ j ∈ items.take count, validateIdea j = none) :
    parseJsonFromResponse text count = fallbackParsePostIdeas text count := by
  have hstage : parseStage1 text count = none := by
    simp only [parseStage1, hm, hp]
    rw [if_neg (by simpa using hne)]
    exact mapM_validate_none _ hbad
  rw [parseJsonFromResponse, hstage]

set_option maxRecDepth 8000 in
/-- Witness for C6: with count 2 the invalid second element lies inside the
validation window, so the whole response is handed to the fallback. -/
theorem validationWindow_witness :
    parseJsonFromResponse ("[\x7b\"text\":\"twelve chars or more!\"\x7d,\x7b\"bad\":1\x7d]".toList) 2 =
      fallbackParsePostIdeas ("[\x7b\"text\":\"twelve chars or more!\"\x7d,\x7b\"bad\":1\x7d]".toList) 2 :=
  validationWindow _ 2 _
    [Json.obj [("text".toList, .str ("twelve chars or more!".toList))],
     Json.obj [("bad".toList, .num 1 0)]]
    rfl rfl (List.cons_ne_nil _ _)
    ⟨Json.obj [("bad".toList, .num 1 0)], by simp, rfl⟩

set_option maxRecDepth 8000 in
/-- Counterexample to C6 as stated: the same parsed array holds an invalid
element, but with count 1 that element sits beyond the slice and stage 1
succeeds silently — the invalid element neither raises nor forces the
fallback (the reasoning marker is the stage-1 default, not the recovery
marker). -/
theorem validationWindow_cex :
    parseJson ("[\x7b\"text\":\"twelve chars or more!\"\x7d,\x7b\"bad\":1\x7d]".toList) =
      some (.arr [Json.obj [("text".toList, .str ("twelve chars or more!".toList))],
        Json.obj [("bad".toList, .num 1 0)]]) ∧
    (validateIdea (Json.obj [("bad".toList, .num 1 0)])).isNone = true ∧
    parseJsonFromResponse ("[\x7b\"text\":\"twelve chars or more!\"\x7d,\x7b\"bad\":1\x7d]".toList) 1 =
      [⟨"twelve chars or more!".toList, none, noReasoningText⟩] :=
  ⟨rfl, rfl, by decide⟩

end Postgeist

namespace Postgeist

/-! ## Claim C3 -/

/-- C3 (amended): the extractor returns, per stage — (1) on strict success,
exactly the validated first-count elements, min(count, arrayLength) of them,
in array order (their texts are the TRIMMED source texts, so a
whitespace-only source text yields an empty draft text: the Draft invariant
can fail there, see the counterexample); (2) on regex recovery, the
deduplicated candidates in pattern-major order (not global source order),
min(count, recovered) of them, all with nonempty text of at most 280
characters and pairwise distinct; (3) when recovery collects nothing, the
emergency drafts truncated to count. -/
theorem extractorOutputShape (text : List Char) (count : Nat) :
    (∀ (m : List Char) (items : List Json) (l : List PostIdea),
      firstBracketSpan (replaceFencePass '[' ']'
          (jsTrim text).length (jsTrim text)) = some m →
      parseJson m = some (.arr items) → items ≠ [] →
      (items.take count).mapM validateIdea = some l →
      parseJsonFromResponse text count = l ∧ l.length = min count items.length) ∧
    (parseStage1 text count = none → recoveredTexts text ≠ [] →
      parseJsonFromResponse text count =
        ((recoveredTexts text).take count).map mkFallbackIdea ∧
      (parseJsonFromResponse text count).length = min count (recoveredTexts text).length ∧
      (∀ d ∈ parseJsonFromResponse text count,
        d.community = none ∧ d.text ≠ [] ∧ d.text.length ≤ 280) ∧
      ((parseJsonFromResponse text count).map PostIdea.text).Nodup) ∧
    (parseStage1 text count = none → recoveredTexts text = [] →
      parseJsonFromResponse text count =
        (emergencyPosts.take count).map (fun t => ⟨t, none, emergencyReasoningText⟩)) := by
  refine ⟨?_, ?_, ?_⟩
  · intro m items l hm hp hne hv
    have hstage : parseStage1 text count = some l := by
      simp only [parseStage1, hm, hp]
      rw [if_neg (by simpa using hne)]
      exact hv
    have hmain : parseJsonFromResponse text count = l := by
      rw [parseJsonFromResponse, hstage]
    refine ⟨hmain, ?_⟩
    rw [mapM_validate_length _ _ hv]
    simp
  · intro hs hrne
    have hfb : parseJsonFromResponse text count =
        ((recoveredTexts text).take count).map mkFallbackIdea := by
      rw [parseJsonFromResponse, hs]
      by_cases hc0 : count = 0
      · subst hc0
        rw [fallbackParsePostIdeas, fallbackCollect_eq]
        simp
      · have hcol : fallbackCollect text count =
            ((recoveredTexts text).take count).map mkFallbackIdea := fallbackCollect_eq _ _
        have htne : (recoveredTexts text).take count ≠ [] := by
          intro h
          rcases List.take_eq_nil_iff.mp h with h1 | h1
          · exact hc0 h1
          · exact hrne h1
        have hie : (fallbackCollect text count).isEmpty = false := by
          rw [hcol]
          simpa using htne
        rw [fallbackParsePostIdeas, hie]
        simp only [Bool.false_eq_true, if_false, hcol]
        rw [← List.map_take, List.take_take]
        simp
    have hmem : ∀ d ∈ parseJsonFromResponse text count,
        d.community = none ∧ d.text ≠ [] ∧ d.text.length ≤ 280 := by
      intro d hd
      rw [hfb] at hd
      rcases List.mem_map.mp hd with ⟨x, hx, rfl⟩
      have hxr : x ∈ recoveredTexts text := List.take_subset _ _ hx
      rcases mem_recoveredTexts hxr with ⟨hne, h280⟩
      exact ⟨rfl, hne, h280⟩
    refine ⟨hfb, ?_, hmem, ?_⟩
    · rw [hfb]
      simp
    · rw [hfb, List.map_map]
      have hcomp : (PostIdea.text ∘ mkFallbackIdea) = id := by
        funext t
        rfl
      rw [hcomp, List.map_id]
      exact ((recoveredTexts_nodup text).sublist (List.take_sublist _ _))
  · intro hs hrnil
    rw [parseJsonFromResponse, hs, fallbackParsePostIdeas, fallbackCollect_eq, hrnil]
    simp

/-- Witness for C3 at the recovery stage: prose with one tweet-length line
and no JSON at all, at count 3. -/
theorem extractorOutputShape_witness :
    parseJsonFromResponse ("I think remote work is evolving fast this year".toList) 3 =
      ((recoveredTexts ("I think remote work is evolving fast this year".toList)).take 3).map
        mkFallbackIdea ∧
    (parseJsonFromResponse ("I think remote work is evolving fast this year".toList) 3).length =
      min 3 (recoveredTexts ("I think remote work is evolving fast this year".toList)).length ∧
    (∀ d ∈ parseJsonFromResponse ("I think remote work is evolving fast this year".toList) 3,
      d.community = none ∧ d.text ≠ [] ∧ d.text.length ≤ 280) ∧
    ((parseJsonFromResponse ("I think remote work is evolving fast this year".toList) 3).map
      PostIdea.text).Nodup :=
  (extractorOutputShape _ 3).2.1 (by rfl) (by decide)

/-- Counterexample to C3 as stated: a whitespace-only `text` member passes
stage-1 validation (a one-space string is truthy) and is then trimmed, so
the extractor returns a draft with EMPTY text, violating the Draft
invariant the claim asserts for every element. -/
theorem extractorOutputShape_cex :
    parseJsonFromResponse ("[\x7b\"text\":\" \",\"community\":null,\"reasoning\":\"r\"\x7d]".toList) 1 =
      [⟨[], none, "r".toList⟩] ∧
    ¬ ∀ d ∈ parseJsonFromResponse ("[\x7b\"text\":\" \",\"community\":null,\"reasoning\":\"r\"\x7d]".toList) 1,
        d.text ≠ [] :=
  ⟨by decide, by decide⟩

/-! ## Claim C10 -/

/-- C10 (amended): every draft the regex-recovery stage produces has null
community, the fallback reasoning marker, and nonempty text of AT MOST 280
characters, pairwise distinct. The lower bound of 10 in the original claim
holds only for the matched candidate BEFORE unescaping; the three
replacement passes can shrink it below 10 — see the counterexample. -/
theorem recoveryDraftInvariants (text : List Char) (count : Nat)
    (hrec : fallbackCollect text count ≠ []) :
    (∀ d ∈ fallbackParsePostIdeas text count,
      d.community = none ∧ d.reasoning = fallbackReasoningText ∧
      d.text ≠ [] ∧ d.text.length ≤ 280) ∧
    ((fallbackParsePostIdeas text count).map PostIdea.text).Nodup := by
  have hie : (fallbackCollect text count).isEmpty = false := by simpa using hrec
  have hfb : fallbackParsePostIdeas text count =
      ((recoveredTexts text).take count).map mkFallbackIdea := by
    rw [fallbackParsePostIdeas, hie]
    simp only [Bool.false_eq_true, if_false, fallbackCollect_eq]
    rw [← List.map_take, List.take_take]
    simp
  constructor
  · intro d hd
    rw [hfb] at hd
    rcases List.mem_map.mp hd with ⟨x, hx, rfl⟩
    have hxr : x ∈ recoveredTexts text := List.take_subset _ _ hx
    rcases mem_recoveredTexts hxr with ⟨hne, h280⟩
    exact ⟨rfl, rfl, hne, h280⟩
  · rw [hfb, List.map_map]
    have hcomp : (PostIdea.text ∘ mkFallbackIdea) = id := by
      funext t
      rfl
    rw [hcomp, List.map_id]
    exact ((recoveredTexts_nodup text).sublist (List.take_sublist _ _))

/-- Witness for C10 on prose with one recoverable line. -/
theorem recoveryDraftInvariants_witness :
    (∀ d ∈ fallbackParsePostIdeas ("I think remote work is evolving fast this year".toList) 3,
      d.community = none ∧ d.reasoning = fallbackReasoningText ∧
      d.text ≠ [] ∧ d.text.length ≤ 280) ∧
    ((fallbackParsePostIdeas ("I think remote work is evolving fast this year".toList) 3).map
      PostIdea.text).Nodup :=
  recoveryDraftInvariants _ 3 (by decide)

/-- Counterexample to C10 as stated: a quoted `text` candidate of exactly 10
characters that is all letter-plus-backslashes passes the length filter, but
the double-backslash replacement then shrinks it to 6 characters — below the
lower bound of 10 the claim asserts for the stored draft text. -/
theorem recoveryDraftInvariants_cex :
    (fallbackParsePostIdeas ("\"text\": \"ab\\\\\\\\\\\\\\\\\"".toList) 1).map
      (fun d => d.text.length) = [6] ∧ (6 : Nat) < 10 :=
  ⟨by decide, by decide⟩

end Postgeist

namespace Postgeist

/-! ## Round-trip lemmas for the wire serializer (claim C4) -/

/-- Hexadecimal rendering inverts on one digit. -/
theorem hexDigitVal_toHexChar : ∀ k, k < 16 → hexDigitVal (toHexChar k) = some k := by
  decide

/-- String-body parsing: the closing quote ends the body. -/
theorem jpStrBody_quote (acc rest : List Char) :
    jpStrBody acc (dquote :: rest) = some (acc.reverse, rest) := by
  rw [jpStrBody.eq_def]
  simp

/-- String-body parsing: a single-character escape. -/
theorem jpStrBody_esc (acc t : List Char) (e c : Char)
    (hu : ¬(e = 'u')) (he : jsonEscChar e = some c) :
    jpStrBody acc (bslash :: (e :: t)) = jpStrBody (c :: acc) t := by
  rw [jpStrBody.eq_def]
  dsimp only
  rw [if_neg (by decide : ¬(bslash = dquote)), if_pos rfl, if_neg hu, he]

/-- String-body parsing: a hexadecimal escape. -/
theorem jpStrBody_hex (acc t : List Char) (a b e g : Char) :
    jpStrBody acc (bslash :: ('u' :: (a :: (b :: (e :: (g :: t)))))) =
      (match hexDigitVal a, hexDigitVal b, hexDigitVal e, hexDigitVal g with
       | some va, some vb, some vc, some vd =>
           jpStrBody (Char.ofNat (((va * 16 + vb) * 16 + vc) * 16 + vd) :: acc) t
       | _, _, _, _ => none) := by
  rw [jpStrBody.eq_def]
  dsimp only
  rw [if_neg (by decide : ¬(bslash = dquote)), if_pos rfl, if_pos rfl]

/-- String-body parsing: an unescaped printable character. -/
theorem jpStrBody_plain (acc t : List Char) (c : Char)
    (h1 : ¬(c = dquote)) (h2 : ¬(c = bslash)) (h3 : ¬(c.toNat < 32)) :
    jpStrBody acc (c :: t) = jpStrBody (c :: acc) t := by
  rw [jpStrBody.eq_def]
  dsimp only
  rw [if_neg h1, if_neg h2, if_neg h3]

/-- Parsing the escaped body of a rendered string recovers the string. -/
theorem jpStrBody_render :
    ∀ (s acc rest : List Char),
      jpStrBody acc ((s.map escapeJsonChar).flatten ++ (dquote :: rest)) =
        some (acc.reverse ++ s, rest) := by
  intro s
  induction s with
  | nil =>
      intro acc rest
      simp only [List.map_nil, List.flatten_nil, List.nil_append]
      rw [jpStrBody_quote]
      simp
  | cons c cs ih =>
      intro acc rest
      simp only [List.map_cons, List.flatten_cons, List.append_assoc]
      by_cases h1 : c = dquote
      · subst h1
        rw [show escapeJsonChar dquote = [bslash, dquote] by decide]
        rw [show ([bslash, dquote] : List Char) ++ ((cs.map escapeJsonChar).flatten ++ (dquote :: rest)) =
          bslash :: (dquote :: ((cs.map escapeJsonChar).flatten ++ (dquote :: rest))) from rfl]
        rw [jpStrBody_esc _ _ dquote dquote (by decide) (by decide), ih (dquote :: acc) rest]
        simp
      · by_cases h2 : c = bslash
        · subst h2
          rw [show escapeJsonChar bslash = [bslash, bslash] by decide]
          rw [show ([bslash, bslash] : List Char) ++ ((cs.map escapeJsonChar).flatten ++ (dquote :: rest)) =
            bslash :: (bslash :: ((cs.map escapeJsonChar).flatten ++ (dquote :: rest))) from rfl]
          rw [jpStrBody_esc _ _ bslash bslash (by decide) (by decide), ih (bslash :: acc) rest]
          simp
        · by_cases h3 : c = '\n'
          · subst h3
            rw [show escapeJsonChar '\n' = [bslash, 'n'] by decide]
            rw [show ([bslash, 'n'] : List Char) ++ ((cs.map escapeJsonChar).flatten ++ (dquote :: rest)) =
              bslash :: ('n' :: ((cs.map escapeJsonChar).flatten ++ (dquote :: rest))) from rfl]
            rw [jpStrBody_esc _ _ 'n' '\n' (by decide) (by decide), ih ('\n' :: acc) rest]
            simp
          · by_cases h4 : c = '\r'
            · subst h4
              rw [show escapeJsonChar '\r' = [bslash, 'r'] by decide]
              rw [show ([bslash, 'r'] : List Char) ++ ((cs.map escapeJsonChar).flatten ++ (dquote :: rest)) =
                bslash :: ('r' :: ((cs.map escapeJsonChar).flatten ++ (dquote :: rest))) from rfl]
              rw [jpStrBody_esc _ _ 'r' '\r' (by decide) (by decide), ih ('\r' :: acc) rest]
              simp
            · by_cases h5 : c = '\t'
              · subst h5
                rw [show escapeJsonChar '\t' = [bslash, 't'] by decide]
                rw [show ([bslash, 't'] : List Char) ++ ((cs.map escapeJsonChar).flatten ++ (dquote :: rest)) =
                  bslash :: ('t' :: ((cs.map escapeJsonChar).flatten ++ (dquote :: rest))) from rfl]
                rw [jpStrBody_esc _ _ 't' '\t' (by decide) (by decide), ih ('\t' :: acc) rest]
                simp
              · by_cases h6 : c = Char.ofNat 8
                · subst h6
                  rw [show escapeJsonChar (Char.ofNat 8) = [bslash, 'b'] by decide]
                  rw [show ([bslash, 'b'] : List Char) ++ ((cs.map escapeJsonChar).flatten ++ (dquote :: rest)) =
                    bslash :: ('b' :: ((cs.map escapeJsonChar).flatten ++ (dquote :: rest))) from rfl]
                  rw [jpStrBody_esc _ _ 'b' (Char.ofNat 8) (by decide) (by decide), ih (Char.ofNat 8 :: acc) rest]
                  simp
                · by_cases h7 : c = Char.ofNat 12
                  · subst h7
                    rw [show escapeJsonChar (Char.ofNat 12) = [bslash, 'f'] by decide]
                    rw [show ([bslash, 'f'] : List Char) ++ ((cs.map escapeJsonChar).flatten ++ (dquote :: rest)) =
                      bslash :: ('f' :: ((cs.map escapeJsonChar).flatten ++ (dquote :: rest))) from rfl]
                    rw [jpStrBody_esc _ _ 'f' (Char.ofNat 12) (by decide) (by decide), ih (Char.ofNat 12 :: acc) rest]
                    simp
                  · by_cases h8 : c.toNat < 32
                    · rw [show escapeJsonChar c = [bslash, 'u', toHexChar (c.toNat / 4096 % 16),
                          toHexChar (c.toNat / 256 % 16), toHexChar (c.toNat / 16 % 16),
                          toHexChar (c.toNat % 16)] by
                        simp [escapeJsonChar, h1, h2, h3, h4, h5, h6, h7, h8]]
                      rw [show ([bslash, 'u', toHexChar (c.toNat / 4096 % 16),
                          toHexChar (c.toNat / 256 % 16), toHexChar (c.toNat / 16 % 16),
                          toHexChar (c.toNat % 16)] : List Char) ++
                          ((cs.map escapeJsonChar).flatten ++ (dquote :: rest)) =
                        bslash :: ('u' :: (toHexChar (c.toNat / 4096 % 16) ::
                          (toHexChar (c.toNat / 256 % 16) :: (toHexChar (c.toNat / 16 % 16) ::
                          (toHexChar (c.toNat % 16) ::
                          ((cs.map escapeJsonChar).flatten ++ (dquote :: rest))))))) from rfl]
                      rw [jpStrBody_hex]
                      rw [hexDigitVal_toHexChar _ (Nat.mod_lt _ (by omega)),
                          hexDigitVal_toHexChar _ (Nat.mod_lt _ (by omega)),
                          hexDigitVal_toHexChar _ (Nat.mod_lt _ (by omega)),
                          hexDigitVal_toHexChar _ (Nat.mod_lt _ (by omega))]
                      dsimp only
                      have hrec : (c.toNat / 4096 % 16 * 16 + c.toNat / 256 % 16) * 16 * 16 +
                          c.toNat / 16 % 16 * 16 + c.toNat % 16 = c.toNat := by
                        omega
                      rw [show ((c.toNat / 4096 % 16 * 16 + c.toNat / 256 % 16) * 16 +
                          c.toNat / 16 % 16) * 16 + c.toNat % 16 =
                          (c.toNat / 4096 % 16 * 16 + c.toNat / 256 % 16) * 16 * 16 +
                          c.toNat / 16 % 16 * 16 + c.toNat % 16 by ring]
                      rw [hrec, Char.ofNat_toNat, ih (c :: acc) rest]
                      simp
                    · rw [show escapeJsonChar c = [c] by
                        simp [escapeJsonChar, h1, h2, h3, h4, h5, h6, h7, h8]]
                      rw [show ([c] : List Char) ++ ((cs.map escapeJsonChar).flatten ++ (dquote :: rest)) =
                        c :: ((cs.map escapeJsonChar).flatten ++ (dquote :: rest)) from rfl]
                      rw [jpStrBody_plain _ _ _ h1 h2 h8, ih (c :: acc) rest]
                      simp

end Postgeist

namespace Postgeist

/-- Value parsing: a rendered string. -/
theorem jpVal_str_step (f : Nat) (x : List Char) :
    jpVal (f + 1) (dquote :: x) =
      (match jpStrBody [] x with
       | some (s, r1) => some (Json.str s, r1)
       | none => none) := rfl

/-- Value parsing: a rendered string literal plus continuation. -/
theorem jpVal_renderStr (f : Nat) (s rest : List Char) :
    jpVal (f + 1) (renderStrChars s ++ rest) = some (.str s, rest) := by
  rw [show renderStrChars s ++ rest =
      dquote :: ((s.map escapeJsonChar).flatten ++ (dquote :: rest)) by
    simp [renderStrChars]]
  rw [jpVal_str_step, jpStrBody_render]
  rfl

/-- Value parsing: the null literal. -/
theorem jpVal_null_step (f : Nat) (x : List Char) :
    jpVal (f + 1) ('n' :: ('u' :: ('l' :: ('l' :: x)))) = some (.null, x) := rfl

/-- Value parsing: the null keyword plus continuation. -/
theorem jpVal_nullRep (f : Nat) (rest : List Char) :
    jpVal (f + 1) ("null".toList ++ rest) = some (.null, rest) :=
  jpVal_null_step f rest

/-- Value parsing: an object that opens with a rendered key. -/
theorem jpVal_obj_step (f : Nat) (k rest2 : List Char) :
    jpVal (f + 1) (lbrace :: (renderStrChars k ++ rest2)) =
      (match jpFields f (renderStrChars k ++ rest2) with
       | some (fs, r2) => some (.obj fs, r2)
       | none => none) := rfl

/-- Value parsing: an array that opens with an object. -/
theorem jpVal_arr_step (f : Nat) (x : List Char) :
    jpVal (f + 1) ('[' :: (lbrace :: x)) =
      (match jpItems f (lbrace :: x) with
       | some (items, r2) => some (.arr items, r2)
       | none => none) := rfl

/-- Member parsing: the last member of an object, closed by a brace. -/
theorem jpFields_last (f : Nat) (k : List Char) (v : Json) (vrep rest : List Char)
    (hv : ∀ (g : Nat) (r2 : List Char), jpVal (g + 1) (vrep ++ r2) = some (v, r2)) :
    jpFields (f + 2) (renderStrChars k ++ (':' :: (vrep ++ (rbrace :: rest)))) =
      some ([(k, v)], rest) := by
  rw [show renderStrChars k ++ (':' :: (vrep ++ (rbrace :: rest))) =
      dquote :: ((k.map escapeJsonChar).flatten ++
        (dquote :: (':' :: (vrep ++ (rbrace :: rest))))) by
    simp [renderStrChars]]
  rw [show jpFields (f + 2) (dquote :: ((k.map escapeJsonChar).flatten ++
        (dquote :: (':' :: (vrep ++ (rbrace :: rest)))))) =
      (match jpStrBody [] ((k.map escapeJsonChar).flatten ++
          (dquote :: (':' :: (vrep ++ (rbrace :: rest))))) with
       | none => none
       | some (k1, r1) =>
           match skipJsonWs r1 with
           | ':' :: r2 =>
               (match jpVal (f + 1) r2 with
                | none => none
                | some (v1, r3) =>
                    match skipJsonWs r3 with
                    | ',' :: r4 =>
                        (match jpFields (f + 1) r4 with
                         | some (fs, r5) => some ((k1, v1) :: fs, r5)
                         | none => none)
                    | d :: r4 => if d = rbrace then some ([(k1, v1)], r4) else none
                    | [] => none)
           | _ => none) from rfl]
  rw [jpStrBody_render]
  simp only [List.reverse_nil, List.nil_append]
  rw [show skipJsonWs (':' :: (vrep ++ (rbrace :: rest))) =
      ':' :: (vrep ++ (rbrace :: rest)) from rfl]
  simp only []
  rw [hv f (rbrace :: rest)]
  rfl

/-- Member parsing: a member followed by a comma and further members. -/
theorem jpFields_cons (f : Nat) (k : List Char) (v : Json) (vrep rest cont : List Char)
    (fs : List (List Char × Json))
    (hv : ∀ (g : Nat) (r2 : List Char), jpVal (g + 1) (vrep ++ r2) = some (v, r2))
    (hcont : jpFields (f + 1) cont = some (fs, rest)) :
    jpFields (f + 2) (renderStrChars k ++ (':' :: (vrep ++ (',' :: cont)))) =
      some ((k, v) :: fs, rest) := by
  rw [show renderStrChars k ++ (':' :: (vrep ++ (',' :: cont))) =
      dquote :: ((k.map escapeJsonChar).flatten ++
        (dquote :: (':' :: (vrep ++ (',' :: cont))))) by
    simp [renderStrChars]]
  rw [show jpFields (f + 2) (dquote :: ((k.map escapeJsonChar).flatten ++
        (dquote :: (':' :: (vrep ++ (',' :: cont)))))) =
      (match jpStrBody [] ((k.map escapeJsonChar).flatten ++
          (dquote :: (':' :: (vrep ++ (',' :: cont))))) with
       | none => none
       | some (k1, r1) =>
           match skipJsonWs r1 with
           | ':' :: r2 =>
               (match jpVal (f + 1) r2 with
                | none => none
                | some (v1, r3) =>
                    match skipJsonWs r3 with
                    | ',' :: r4 =>
                        (match jpFields (f + 1) r4 with
                         | some (fs1, r5) => some ((k1, v1) :: fs1, r5)
                         | none => none)
                    | d :: r4 => if d = rbrace then some ([(k1, v1)], r4) else none
                    | [] => none)
           | _ => none) from rfl]
  rw [jpStrBody_render]
  simp only [List.reverse_nil, List.nil_append]
  rw [show skipJsonWs (':' :: (vrep ++ (',' :: cont))) =
      ':' :: (vrep ++ (',' :: cont)) from rfl]
  simp only []
  rw [hv f (',' :: cont)]
  simp only []
  rw [show skipJsonWs (',' :: cont) = ',' :: cont from rfl]
  simp only []
  rw [hcont]

end Postgeist

namespace Postgeist

/-- Parsing a rendered draft object recovers its parsed-JSON form. -/
theorem jpVal_renderDraft (d : PostIdea) (f : Nat) (rest : List Char) :
    jpVal (f + 5) (renderDraft d ++ rest) = some (draftJson d, rest) := by
  have hcv : ∀ (g : Nat) (r2 : List Char),
      jpVal (g + 1) ((match d.community with
        | none => "null".toList
        | some c => renderStrChars c) ++ r2) =
      some ((match d.community with
        | none => Json.null
        | some c => Json.str c), r2) := by
    intro g r2
    cases d.community with
    | none => exact jpVal_nullRep g r2
    | some c => exact jpVal_renderStr g c r2
  have h3 : jpFields (f + 2) (renderStrChars reasoningKey ++ (':' ::
      (renderStrChars d.reasoning ++ (rbrace :: rest)))) =
      some ([(reasoningKey, Json.str d.reasoning)], rest) :=
    jpFields_last f reasoningKey (Json.str d.reasoning) (renderStrChars d.reasoning) rest
      (fun g r2 => jpVal_renderStr g d.reasoning r2)
  have h2 : jpFields (f + 3) (renderStrChars communityKey ++ (':' ::
      ((match d.community with
        | none => "null".toList
        | some c => renderStrChars c) ++ (',' ::
      (renderStrChars reasoningKey ++ (':' ::
      (renderStrChars d.reasoning ++ (rbrace :: rest)))))))) =
      some ([(communityKey, (match d.community with
        | none => Json.null
        | some c => Json.str c)),
        (reasoningKey, Json.str d.reasoning)], rest) :=
    jpFields_cons (f + 1) communityKey _ _ rest _ _ hcv h3
  have h1 : jpFields (f + 4) (renderStrChars textKey ++ (':' ::
      (renderStrChars d.text ++ (',' ::
      (renderStrChars communityKey ++ (':' ::
      ((match d.community with
        | none => "null".toList
        | some c => renderStrChars c) ++ (',' ::
      (renderStrChars reasoningKey ++ (':' ::
      (renderStrChars d.reasoning ++ (rbrace :: rest)))))))))))) =
      some ([(textKey, Json.str d.text),
        (communityKey, (match d.community with
          | none => Json.null
          | some c => Json.str c)),
        (reasoningKey, Json.str d.reasoning)], rest) :=
    jpFields_cons (f + 2) textKey (Json.str d.text) (renderStrChars d.text) rest _ _
      (fun g r2 => jpVal_renderStr g d.text r2) h2
  have hsh : renderDraft d ++ rest =
      lbrace :: (renderStrChars textKey ++ (':' ::
      (renderStrChars d.text ++ (',' ::
      (renderStrChars communityKey ++ (':' ::
      ((match d.community with
        | none => "null".toList
        | some c => renderStrChars c) ++ (',' ::
      (renderStrChars reasoningKey ++ (':' ::
      (renderStrChars d.reasoning ++ (rbrace :: rest)))))))))))) := by
    simp [renderDraft]
    rfl
  rw [hsh, show (f + 5 : Nat) = (f + 4) + 1 from rfl, jpVal_obj_step (f + 4), h1]
  rfl

end Postgeist

namespace Postgeist

/-- Item-list parsing: one unfolding of the fuel. -/
theorem jpItems_step (f : Nat) (cs : List Char) :
    jpItems (f + 1) cs = (match jpVal f cs with
      | none => none
      | some (v, r) =>
          match skipJsonWs r with
          | ',' :: r1 =>
              (match jpItems f r1 with
               | some (vs, r2) => some (v :: vs, r2)
               | none => none)
          | ']' :: r1 => some ([v], r1)
          | _ => none) := rfl

/-- Parsing the rendered comma-separated draft objects up to the closing
bracket recovers their parsed-JSON forms. -/
theorem jpItems_renderBody :
    ∀ (ds : List PostIdea) (f : Nat) (rest : List Char), ds ≠ [] →
      jpItems (f + 6 + ds.length) (renderDraftsBody ds ++ (']' :: rest)) =
        some (ds.map draftJson, rest) := by
  intro ds
  induction ds with
  | nil => intro f rest h; exact absurd rfl h
  | cons d ds ih =>
      intro f rest _
      cases ds with
      | nil =>
          rw [show renderDraftsBody [d] = renderDraft d from rfl]
          rw [show (f + 6 + ([d] : List PostIdea).length : Nat) = (f + 6) + 1 from rfl]
          rw [jpItems_step (f + 6)]
          rw [show (f + 6 : Nat) = (f + 1) + 5 from rfl]
          rw [jpVal_renderDraft d (f + 1) (']' :: rest)]
          rfl
      | cons e es =>
          have hfu : f + 6 + (d :: e :: es).length = (f + es.length + 7) + 1 := by
            simp only [List.length_cons]
            omega
          have hsh : renderDraftsBody (d :: e :: es) ++ (']' :: rest) =
              renderDraft d ++ (',' :: (renderDraftsBody (e :: es) ++ (']' :: rest))) := by
            rw [show renderDraftsBody (d :: e :: es) =
              renderDraft d ++ (',' :: renderDraftsBody (e :: es)) from rfl]
            simp
          rw [hfu, hsh, jpItems_step (f + es.length + 7)]
          rw [show (f + es.length + 7 : Nat) = (f + es.length + 2) + 5 from rfl]
          rw [jpVal_renderDraft d (f + es.length + 2)]
          simp only []
          rw [show skipJsonWs (',' :: (renderDraftsBody (e :: es) ++ (']' :: rest))) =
            ',' :: (renderDraftsBody (e :: es) ++ (']' :: rest)) from rfl]
          simp only []
          have hin : f + es.length + 2 + 5 = f + 6 + (e :: es).length := by
            simp only [List.length_cons]
            omega
          rw [hin, ih f rest (List.cons_ne_nil _ _)]
          rfl

/-- Array parsing through an explicit head shape for the body. -/
theorem jpVal_arr_shape (f : Nat) (b x : List Char) (hb : b = lbrace :: x) :
    jpVal (f + 1) ('[' :: b) =
      (match jpItems f b with
       | some (items, r2) => some (.arr items, r2)
       | none => none) := by
  subst hb
  rfl

/-- The rendered body of a nonempty draft list opens with a brace. -/
theorem renderDraftsBody_shape (ds : List PostIdea) (h : ds ≠ []) :
    ∃ x, renderDraftsBody ds = lbrace :: x := by
  cases ds with
  | nil => exact absurd rfl h
  | cons d ds =>
      cases ds with
      | nil => exact ⟨_, rfl⟩
      | cons e es => exact ⟨_, rfl⟩

/-- Parsing a rendered draft array plus continuation. -/
theorem jpVal_renderDrafts (ds : List PostIdea) (f : Nat) (rest : List Char) (h : ds ≠ []) :
    jpVal (f + 7 + ds.length) (renderDrafts ds ++ rest) =
      some (.arr (ds.map draftJson), rest) := by
  rcases renderDraftsBody_shape ds h with ⟨x, hx⟩
  have hsh : renderDrafts ds ++ rest =
      '[' :: (renderDraftsBody ds ++ (']' :: rest)) := by
    simp [renderDrafts]
  have hb : renderDraftsBody ds ++ (']' :: rest) = lbrace :: (x ++ (']' :: rest)) := by
    rw [hx]
    simp
  have hfu : f + 7 + ds.length = (f + 6 + ds.length) + 1 := by omega
  rw [hsh, hfu, jpVal_arr_shape (f + 6 + ds.length) _ _ hb,
    jpItems_renderBody ds f rest h]

/-- Each rendered draft is at least 7 characters long. -/
theorem renderDraft_length_ge (d : PostIdea) : 7 ≤ (renderDraft d).length := by
  rcases d with ⟨t, c, r⟩
  cases c <;> simp [renderDraft, renderStrChars] <;> omega

/-- The rendered body of a draft list is at least 7 characters per draft. -/
theorem renderDraftsBody_length :
    ∀ (ds : List PostIdea), ds ≠ [] → 7 * ds.length ≤ (renderDraftsBody ds).length := by
  intro ds
  induction ds with
  | nil => intro h; exact absurd rfl h
  | cons d ds ih =>
      intro _
      cases ds with
      | nil =>
          simpa using renderDraft_length_ge d
      | cons e es =>
          rw [show renderDraftsBody (d :: e :: es) =
            renderDraft d ++ (',' :: renderDraftsBody (e :: es)) from rfl]
          have h1 := renderDraft_length_ge d
          have h2 := ih (List.cons_ne_nil _ _)
          simp only [List.length_append, List.length_cons] at h1 h2 ⊢
          omega

/-- Model of JSON.parse applied to the rendered wire JSON of a nonempty
draft array. -/
theorem parseJson_renderDrafts (ds : List PostIdea) (h : ds ≠ []) :
    parseJson (renderDrafts ds) = some (.arr (ds.map draftJson)) := by
  have hbody := renderDraftsBody_length ds h
  have hne : 1 ≤ ds.length := by
    cases ds with
    | nil => exact absurd rfl h
    | cons d ds => simp
  have hlen : (renderDrafts ds).length + 1 =
      ((renderDrafts ds).length + 1 - 7 - ds.length) + 7 + ds.length := by
    have hh : (renderDrafts ds).length = (renderDraftsBody ds).length + 2 := by
      simp [renderDrafts]
    omega
  have hmain := jpVal_renderDrafts ds ((renderDrafts ds).length + 1 - 7 - ds.length) [] h
  rw [List.append_nil] at hmain
  rw [parseJson, hlen, hmain]
  rfl

end Postgeist

namespace Postgeist

/-- The fence pattern cannot start anywhere but at a backtick. -/
theorem tryFenceAt_none (oc cc c : Char) (rest : List Char) (h : ¬(c = btick)) :
    tryFenceAt oc cc (c :: rest) = none := by
  have hdp : dropPrefixChars [btick, btick, btick] (c :: rest) = none := by
    rw [dropPrefixChars.eq_def]
    dsimp only
    rw [if_neg (fun hh => h hh.symm)]
  simp only [tryFenceAt, hdp]

/-- A backtick-free string passes through the fence replacement unchanged. -/
theorem replaceFencePass_id (oc cc : Char) :
    ∀ (fuel : Nat) (s : List Char), (∀ c ∈ s, ¬(c = btick)) →
      replaceFencePass oc cc fuel s = s := by
  intro fuel
  induction fuel with
  | zero => intro s _; rw [replaceFencePass]
  | succ f ih =>
      intro s hs
      cases s with
      | nil => rfl
      | cons c rest =>
          rw [replaceFencePass, tryFenceAt_none _ _ _ _ (hs c (List.mem_cons_self _ _))]
          rw [ih rest (fun x hx => hs x (List.mem_cons_of_mem _ hx))]

/-- A block of characters satisfying the predicate extends `takeWhile`. -/
theorem takeWhile_all_append {p : Char → Bool} :
    ∀ (l t : List Char), (∀ x ∈ l, p x = true) →
      (l ++ t).takeWhile p = l ++ t.takeWhile p := by
  intro l
  induction l with
  | nil => intro t _; simp
  | cons a l ih =>
      intro t h
      rw [List.cons_append, List.takeWhile_cons_of_pos (h a (List.mem_cons_self _ _))]
      rw [ih t (fun x hx => h x (List.mem_cons_of_mem _ hx))]
      rfl

/-- The lazy bracket regex returns a bracket-wrapped payload whole when the
payload contains no closing bracket. -/
theorem firstBracketSpan_wrapped (body : List Char)
    (hnb : ∀ c ∈ body, ¬(c = ']')) :
    firstBracketSpan ('[' :: (body ++ [']'])) = some ('[' :: (body ++ [']'])) := by
  rw [firstBracketSpan]
  have h0 : (('[' :: (body ++ [']'])).takeWhile fun c => !(c = '[')) = [] := by
    rw [List.takeWhile_cons_of_neg]
    simp
  rw [h0]
  simp only [List.length_nil, List.drop_zero]
  have h1 : ((body ++ [']']).takeWhile fun c => !(c = ']')) = body := by
    rw [takeWhile_all_append body [']'] (fun x hx => by simpa using hnb x hx)]
    simp
  rw [h1]
  have h2 : (body ++ ([']'] : List Char)).drop body.length = [']'] := List.drop_left _ _
  rw [h2]
  rfl

/-- Hexadecimal digit characters are neither a closing bracket nor a
backtick. -/
theorem toHexChar_safe : ∀ k, k < 16 →
    ((toHexChar k = ']') = False) ∧ ((toHexChar k = btick) = False) := by
  decide

/-- The characters escaping can produce: the character itself, one of the
fixed escape characters, or a hexadecimal digit. -/
theorem mem_escapeJsonChar {c x : Char} (hx : x ∈ escapeJsonChar c) :
    x = c ∨ x ∈ [bslash, dquote, 'n', 'r', 't', 'b', 'f', 'u'] ∨
      ∃ k, k < 16 ∧ x = toHexChar k := by
  rw [escapeJsonChar] at hx
  by_cases h1 : c = dquote
  · rw [if_pos h1] at hx
    simp only [List.mem_cons, List.not_mem_nil, or_false] at hx
    rcases hx with rfl | rfl <;> exact Or.inr (Or.inl (by simp))
  rw [if_neg h1] at hx
  by_cases h2 : c = bslash
  · rw [if_pos h2] at hx
    simp only [List.mem_cons, List.not_mem_nil, or_false] at hx
    rcases hx with rfl | rfl <;> exact Or.inr (Or.inl (by simp))
  rw [if_neg h2] at hx
  by_cases h3 : c = '\n'
  · rw [if_pos h3] at hx
    simp only [List.mem_cons, List.not_mem_nil, or_false] at hx
    rcases hx with rfl | rfl <;> exact Or.inr (Or.inl (by simp))
  rw [if_neg h3] at hx
  by_cases h4 : c = '\r'
  · rw [if_pos h4] at hx
    simp only [List.mem_cons, List.not_mem_nil, or_false] at hx
    rcases hx with rfl | rfl <;> exact Or.inr (Or.inl (by simp))
  rw [if_neg h4] at hx
  by_cases h5 : c = '\t'
  · rw [if_pos h5] at hx
    simp only [List.mem_cons, List.not_mem_nil, or_false] at hx
    rcases hx with rfl | rfl <;> exact Or.inr (Or.inl (by simp))
  rw [if_neg h5] at hx
  by_cases h6 : c = Char.ofNat 8
  · rw [if_pos h6] at hx
    simp only [List.mem_cons, List.not_mem_nil, or_false] at hx
    rcases hx with rfl | rfl <;> exact Or.inr (Or.inl (by simp))
  rw [if_neg h6] at hx
  by_cases h7 : c = Char.ofNat 12
  · rw [if_pos h7] at hx
    simp only [List.mem_cons, List.not_mem_nil, or_false] at hx
    rcases hx with rfl | rfl <;> exact Or.inr (Or.inl (by simp))
  rw [if_neg h7] at hx
  by_cases h8 : c.toNat < 32
  · rw [if_pos h8] at hx
    simp only [List.mem_cons, List.not_mem_nil, or_false] at hx
    rcases hx with rfl | rfl | rfl | rfl | rfl | rfl
    · exact Or.inr (Or.inl (by simp))
    · exact Or.inr (Or.inl (by simp))
    · exact Or.inr (Or.inr ⟨_, Nat.mod_lt _ (by omega), rfl⟩)
    · exact Or.inr (Or.inr ⟨_, Nat.mod_lt _ (by omega), rfl⟩)
    · exact Or.inr (Or.inr ⟨_, Nat.mod_lt _ (by omega), rfl⟩)
    · exact Or.inr (Or.inr ⟨_, Nat.mod_lt _ (by omega), rfl⟩)
  rw [if_neg h8] at hx
  simp only [List.mem_cons, List.not_mem_nil, or_false] at hx
  exact Or.inl hx

/-- The fixed escape characters are neither a closing bracket nor a
backtick. -/
theorem fixedEsc_safe :
    ∀ x ∈ ([bslash, dquote, 'n', 'r', 't', 'b', 'f', 'u'] : List Char),
      ¬(x = ']') ∧ ¬(x = btick) := by
  decide

/-- Escaping preserves freedom from the closing bracket and the backtick. -/
theorem mem_escapeJsonChar_safe {c x : Char}
    (hc : (!(c = ']') && !(c = btick)) = true) (hx : x ∈ escapeJsonChar c) :
    ¬(x = ']') ∧ ¬(x = btick) := by
  simp only [Bool.and_eq_true, Bool.not_eq_true', decide_eq_false_iff_not] at hc
  rcases mem_escapeJsonChar hx with rfl | hfix | ⟨k, hk, rfl⟩
  · exact hc
  · exact fixedEsc_safe x hfix
  · have := toHexChar_safe k hk
    exact ⟨by simp [this.1], by simp [this.2]⟩

/-- Boolean and propositional forms of bad-character freedom. -/
theorem noBadChars_iff (l : List Char) :
    noBadChars l = true ↔ ∀ x ∈ l, ¬(x = ']') ∧ ¬(x = btick) := by
  simp [noBadChars, List.all_eq_true]

/-- A rendered string literal of safe content holds no closing bracket and no
backtick: the delimiters are quotes and escaping cannot introduce either. -/
theorem renderStrChars_safe {s : List Char} (h : noBadChars s = true) :
    ∀ x ∈ renderStrChars s, ¬(x = ']') ∧ ¬(x = btick) := by
  intro x hx
  rw [renderStrChars] at hx
  rcases List.mem_cons.mp hx with rfl | hx
  · exact ⟨by decide, by decide⟩
  rcases List.mem_append.mp hx with hx | hx
  · rcases List.mem_flatten.mp hx with ⟨l, hl, hxl⟩
    rcases List.mem_map.mp hl with ⟨c, hc, rfl⟩
    have hcs := (noBadChars_iff s).mp h c hc
    exact mem_escapeJsonChar_safe (by simp [hcs.1, hcs.2]) hxl
  · rw [List.mem_singleton] at hx
    subst hx
    exact ⟨by decide, by decide⟩

/-- A rendered draft object of a good draft holds no closing bracket and no
backtick. -/
theorem renderDraft_safe {d : PostIdea} (h : goodDraft d = true) :
    ∀ x ∈ renderDraft d, ¬(x = ']') ∧ ¬(x = btick) := by
  simp only [goodDraft, Bool.and_eq_true] at h
  obtain ⟨h1, h2, h3, hcomm, h5, h6⟩ := h
  intro x hx
  rw [renderDraft] at hx
  rcases List.mem_cons.mp hx with rfl | hx
  · exact ⟨by decide, by decide⟩
  simp only [List.mem_append, List.mem_cons, List.mem_singleton, List.not_mem_nil,
    or_false, or_assoc] at hx
  rcases hx with hx | rfl | hx | rfl | hx | rfl | hx | rfl | hx | rfl | hx | rfl
  · exact renderStrChars_safe (s := "text".toList) (by decide) x hx
  · exact ⟨by decide, by decide⟩
  · exact renderStrChars_safe h3 x hx
  · exact ⟨by decide, by decide⟩
  · exact renderStrChars_safe (s := "community".toList) (by decide) x hx
  · exact ⟨by decide, by decide⟩
  · cases hc : d.community with
    | none =>
        rw [hc] at hx
        simp only [] at hx
        have hnull : ∀ y ∈ ("null".toList : List Char), ¬(y = ']') ∧ ¬(y = btick) := by
          decide
        exact hnull x hx
    | some c =>
        rw [hc] at hcomm hx
        simp only [] at hx
        exact renderStrChars_safe hcomm x hx
  · exact ⟨by decide, by decide⟩
  · exact renderStrChars_safe (s := "reasoning".toList) (by decide) x hx
  · exact ⟨by decide, by decide⟩
  · exact renderStrChars_safe h6 x hx
  · exact ⟨by decide, by decide⟩

/-- A rendered draft-array body of good drafts holds no closing bracket and
no backtick. -/
theorem renderDraftsBody_safe :
    ∀ (ds : List PostIdea), (∀ d ∈ ds, goodDraft d = true) →
      ∀ x ∈ renderDraftsBody ds, ¬(x = ']') ∧ ¬(x = btick) := by
  intro ds
  induction ds with
  | nil => intro _ x hx; cases hx
  | cons d rest ih =>
      intro h x hx
      cases rest with
      | nil => exact renderDraft_safe (h d (List.mem_cons_self _ _)) x hx
      | cons e es =>
          rw [show renderDraftsBody (d :: e :: es) =
            renderDraft d ++ ',' :: renderDraftsBody (e :: es) from rfl] at hx
          rcases List.mem_append.mp hx with hx | hx
          · exact renderDraft_safe (h d (List.mem_cons_self _ _)) x hx
          rcases List.mem_cons.mp hx with rfl | hx
          · exact ⟨by decide, by decide⟩
          · exact ih (fun i hi => h i (List.mem_cons_of_mem _ hi)) x hx

/-- The wire JSON value of a good draft is a well-formed Draft object. -/
theorem wellFormed_draftJson {d : PostIdea} (h : goodDraft d = true) :
    wellFormedDraftJson (draftJson d) = true := by
  simp only [goodDraft, Bool.and_eq_true] at h
  obtain ⟨h1, h2, h3, hcomm, h5, h6⟩ := h
  cases hc : d.community with
  | none =>
      simp only [draftJson, hc]
      show ((!d.text.isEmpty && decide (jsTrim d.text = d.text)) &&
        (true && !d.reasoning.isEmpty)) = true
      rw [h1, h2, h5]
      rfl
  | some c =>
      simp only [draftJson, hc]
      show ((!d.text.isEmpty && decide (jsTrim d.text = d.text)) &&
        (true && !d.reasoning.isEmpty)) = true
      rw [h1, h2, h5]
      rfl

/-- The wire JSON value of a draft denotes the draft itself. -/
theorem denote_draftJson (d : PostIdea) : denoteDraft (draftJson d) = d := by
  cases hc : d.community with
  | none =>
      simp only [draftJson, hc]
      show (⟨d.text, none, d.reasoning⟩ : PostIdea) = d
      rw [← hc]
  | some c =>
      simp only [draftJson, hc]
      show (⟨d.text, some c, d.reasoning⟩ : PostIdea) = d
      rw [← hc]

/-- Stage 1 strict extraction inverts the wire serializer on nonempty arrays
of good drafts. -/
theorem parseStage1_renderDrafts (ds : List PostIdea) (hne : ds ≠ [])
    (hgood : ∀ d ∈ ds, goodDraft d = true) :
    parseStage1 (renderDrafts ds) ds.length = some ds := by
  have hsafe := renderDraftsBody_safe ds hgood
  have hs0 : jsTrim (renderDrafts ds) = renderDrafts ds := by
    rw [renderDrafts]
    exact jsTrim_ends _ (by decide) (by decide)
  have hs1 : ∀ fuel, replaceFencePass '[' ']' fuel (renderDrafts ds) = renderDrafts ds := by
    intro fuel
    apply replaceFencePass_id
    intro c hc
    rw [renderDrafts] at hc
    rcases List.mem_cons.mp hc with rfl | hc
    · decide
    rcases List.mem_append.mp hc with hc | hc
    · exact (hsafe c hc).2
    · rw [List.mem_singleton] at hc
      subst hc
      decide
  have hspan : firstBracketSpan (renderDrafts ds) = some (renderDrafts ds) := by
    rw [renderDrafts]
    exact firstBracketSpan_wrapped _ (fun c hc => (hsafe c hc).1)
  have hparse := parseJson_renderDrafts ds hne
  have hwf : ∀ j ∈ ds.map draftJson, wellFormedDraftJson j = true := by
    intro j hj
    rcases List.mem_map.mp hj with ⟨d, hd, rfl⟩
    exact wellFormed_draftJson (hgood d hd)
  have htake : (ds.map draftJson).take ds.length = ds.map draftJson :=
    List.take_of_length_le (by simp)
  have hmapm := mapM_validate_of_wellFormed (ds.map draftJson) hwf
  have hdenote : (ds.map draftJson).map denoteDraft = ds := by
    rw [List.map_map]
    have hcong : ∀ d ∈ ds, (denoteDraft ∘ draftJson) d = id d := fun d _ => denote_draftJson d
    rw [List.map_congr_left hcong, List.map_id]
  have hne2 : (ds.map draftJson).isEmpty = false := by
    cases ds with
    | nil => exact absurd rfl hne
    | cons d l => rfl
  unfold parseStage1
  simp only [hs0, hs1, hspan, hparse, hne2, Bool.false_eq_true, if_false, htake, hmapm, hdenote]

/-- C4: round-trip of strict parsing. A nonempty Draft array of good drafts
(nonempty trimmed text, nonempty reasoning, and no closing bracket or
backtick in any field), serialized to the documented wire JSON and
re-extracted with the stage-1 strict parser at the array length, yields an
array identical to the original. The side conditions are needed: an empty
array, a count below the length, surrounding whitespace in a text, or a
closing bracket or backtick inside a field all break the round trip. -/
theorem wireRoundTrip (ds : List PostIdea) (hne : ds ≠ [])
    (hgood : ∀ d ∈ ds, goodDraft d = true) :
    parseJsonFromResponse (renderDrafts ds) ds.length = ds := by
  rw [parseJsonFromResponse, parseStage1_renderDrafts ds hne hgood]

set_option maxRecDepth 8000 in
/-- Witness for C4: a concrete two-draft array, one draft with a community
and one without, round-trips exactly. -/
theorem wireRoundTrip_witness :
    parseJsonFromResponse
      (renderDrafts
        [⟨"hello world from the demo".toList, none, "fits the voice".toList⟩,
         ⟨"second post text".toList, some "DevCommunity".toList, "why not".toList⟩]) 2 =
      [⟨"hello world from the demo".toList, none, "fits the voice".toList⟩,
       ⟨"second post text".toList, some "DevCommunity".toList, "why not".toList⟩] :=
  wireRoundTrip
    [⟨"hello world from the demo".toList, none, "fits the voice".toList⟩,
     ⟨"second post text".toList, some "DevCommunity".toList, "why not".toList⟩]
    (by decide) (by decide)

set_option maxRecDepth 8000 in
/-- Counterexample to the unrestricted C4 claim: a draft whose text holds a
closing bracket serializes to wire JSON whose lazy bracket span is cut at
that bracket, so strict parsing fails and regex recovery returns a draft
with the fallback reasoning instead of the original one. -/
theorem wireRoundTrip_cex :
    parseJsonFromResponse
      (renderDrafts [⟨"contains ] bracket here ok".toList, none, "r".toList⟩]) 1 ≠
      [⟨"contains ] bracket here ok".toList, none, "r".toList⟩] := by
  decide

/-- A member of a joined list is an infix of the join. -/
theorem joinSep_infix_of_mem (sep : List Char) :
    ∀ (xs : List (List Char)) (x : List Char), x ∈ xs →
      ∃ l r : List Char, joinSep sep xs = l ++ (x ++ r) := by
  intro xs
  induction xs with
  | nil => intro x hx; cases hx
  | cons a rest ih =>
      intro x hx
      cases rest with
      | nil =>
          rcases List.mem_cons.mp hx with rfl | hx
          · exact ⟨[], [], by simp [joinSep]⟩
          · cases hx
      | cons b bs =>
          rcases List.mem_cons.mp hx with rfl | hx
          · refine ⟨[], sep ++ joinSep sep (b :: bs), ?_⟩
            rw [show joinSep sep (x :: b :: bs) = x ++ sep ++ joinSep sep (b :: bs) from rfl]
            simp [List.append_assoc]
          · rcases ih x hx with ⟨l, r, hlr⟩
            refine ⟨a ++ sep ++ l, r, ?_⟩
            rw [show joinSep sep (a :: b :: bs) = a ++ sep ++ joinSep sep (b :: bs) from rfl,
              hlr]
            simp [List.append_assoc]

/-- Every post of the block contributes a numbered line. -/
theorem postLines_mem (p : TwitterPost) :
    ∀ (ps : List TwitterPost) (i : Nat), p ∈ ps →
      ∃ j, postLine j p ∈ postLines i ps := by
  intro ps
  induction ps with
  | nil => intro i h; cases h
  | cons q qs ih =>
      intro i h
      rcases List.mem_cons.mp h with rfl | h
      · exact ⟨i, List.mem_cons_self _ _⟩
      · rcases ih (i + 1) h with ⟨j, hj⟩
        exact ⟨j, List.mem_cons_of_mem _ hj⟩

/-- The post text is an infix of its numbered line. -/
theorem postLine_infix (j : Nat) (p : TwitterPost) :
    ∃ l r : List Char, postLine j p = l ++ (p.text ++ r) :=
  ⟨natToChars (j + 1) ++ ". ".toList,
   (if (attachmentLines p).isEmpty then []
    else "\n   Attachments:\n   - ".toList ++
      joinSep ("\n   - ".toList) (attachmentLines p)),
   by simp [postLine, List.append_assoc]⟩

/-- The text of a post among the first `maxPosts` is an infix of the
prior-posts block. -/
theorem postsForPrompt_infix (posts : List TwitterPost) (maxPosts : Nat)
    (p : TwitterPost) (hp : p ∈ posts.take maxPosts) :
    ∃ l r : List Char, postsForPrompt posts maxPosts = l ++ (p.text ++ r) := by
  rcases postLines_mem p (posts.take maxPosts) 0 hp with ⟨j, hj⟩
  rcases joinSep_infix_of_mem ['\n'] (postLines 0 (posts.take maxPosts)) (postLine j p) hj
    with ⟨l, r, hlr⟩
  rcases postLine_infix j p with ⟨l2, r2, h2⟩
  refine ⟨l ++ l2, r2 ++ r, ?_⟩
  rw [postsForPrompt, hlr, h2]
  simp [List.append_assoc]

/-- A character of an infix is a character of the whole. -/
theorem char_of_infix {c : Char} {t s l r : List Char} (h : s = l ++ (t ++ r))
    (hc : c ∈ t) : c ∈ s := by
  subst h
  simp [hc]

/-- C8: layout of the generation prompt. For a profile with nonempty posts
the prompt decomposes with the custom-instructions section strictly before
the prior-posts block, and the text of every post among the first `maxPosts`
appears verbatim inside the prompt. Only those first `maxPosts` posts are
guaranteed to appear: `postsForPrompt` slices the list first. -/
theorem promptLayout (npp : List Char) (ud : UserData) (an : Analysis)
    (count maxPosts : Nat) (hne : ud.posts ≠ []) :
    (buildGenerationPrompt npp ud an count maxPosts =
      (npp ++ "\n\n".toList) ++
      customInstructionsSection ud ++
      (gpChunk2 ++ an.summary ++ gpChunk3 ++ joinComma an.key_themes ++ gpChunk4 ++
        joinComma an.engagement_patterns ++ gpChunk5 ++ an.tone ++ gpChunk6) ++
      postsForPrompt ud.posts maxPosts ++
      ("\n\n".toList ++ strategicInsightsSection an ++ "\n".toList ++
        communitiesSection ud ++ gpChunk9 ++ natToChars count ++ gpChunk10)) ∧
    (∀ p ∈ ud.posts.take maxPosts, ∃ l r : List Char,
      buildGenerationPrompt npp ud an count maxPosts = l ++ (p.text ++ r)) := by
  constructor
  · simp [buildGenerationPrompt, List.append_assoc]
  · intro p hp
    rcases postsForPrompt_infix ud.posts maxPosts p hp with ⟨l, r, hlr⟩
    refine ⟨(npp ++ "\n\n".toList) ++ customInstructionsSection ud ++ gpChunk2 ++
      an.summary ++ gpChunk3 ++ joinComma an.key_themes ++ gpChunk4 ++
      joinComma an.engagement_patterns ++ gpChunk5 ++ an.tone ++ gpChunk6 ++ l,
      r ++ ("\n\n".toList ++ strategicInsightsSection an ++ "\n".toList ++
        communitiesSection ud ++ gpChunk9 ++ natToChars count ++ gpChunk10), ?_⟩
    simp only [buildGenerationPrompt]
    rw [hlr]
    simp [List.append_assoc]

/-- Analysis data of the C8 witness profile. -/
def plwAn : Analysis :=
  ⟨"sum".toList, [], [], [], [], "calm".toList, none, none, none, none, none, none⟩

/-- The C8 witness profile: one post, an analysis present. -/
def plwUd : UserData :=
  ⟨"u".toList, [⟨"hello there".toList, [], []⟩], some plwAn, none, none⟩

/-- Witness for C8: the layout equation and the verbatim containment hold on
a concrete one-post profile. -/
theorem promptLayout_witness :
    (plwUd.posts ≠ []) ∧
    ((buildGenerationPrompt [] plwUd plwAn 2 maxPostsForPromptDefault =
      (([] : List Char) ++ "\n\n".toList) ++
      customInstructionsSection plwUd ++
      (gpChunk2 ++ plwAn.summary ++ gpChunk3 ++ joinComma plwAn.key_themes ++ gpChunk4 ++
        joinComma plwAn.engagement_patterns ++ gpChunk5 ++ plwAn.tone ++ gpChunk6) ++
      postsForPrompt plwUd.posts maxPostsForPromptDefault ++
      ("\n\n".toList ++ strategicInsightsSection plwAn ++ "\n".toList ++
        communitiesSection plwUd ++ gpChunk9 ++ natToChars 2 ++ gpChunk10)) ∧
    (∀ p ∈ plwUd.posts.take maxPostsForPromptDefault, ∃ l r : List Char,
      buildGenerationPrompt [] plwUd plwAn 2 maxPostsForPromptDefault =
        l ++ (p.text ++ r))) :=
  ⟨by decide, promptLayout [] plwUd plwAn 2 maxPostsForPromptDefault (by decide)⟩

/-- Analysis data of the C8 counterexample profile. -/
def plcAn : Analysis :=
  ⟨"s".toList, [], [], [], [], "t".toList, none, none, none, none, none, none⟩

/-- Posts of the C8 counterexample profile: 50 filler posts followed by one
whose text appears nowhere in the prompt. -/
def plcPosts : List TwitterPost :=
  (List.range 50).map (fun _ => ⟨"a".toList, [], []⟩) ++ [⟨"ζ".toList, [], []⟩]

/-- The C8 counterexample profile. -/
def plcUd : UserData :=
  ⟨"user".toList, plcPosts, some plcAn, none, none⟩

set_option maxRecDepth 8000 in
/-- Counterexample to the unrestricted C8 claim: a profile with an analysis
and 51 posts. The 51st post text is not contained in the prompt built with
the default posts cap of 50: the slice drops it before the block is built. -/
theorem promptLayout_cex :
    plcUd.analysis.isSome = true ∧ plcUd.posts ≠ [] ∧
    (⟨"ζ".toList, [], []⟩ : TwitterPost) ∈ plcUd.posts ∧
    ¬∃ l r : List Char,
      buildGenerationPrompt [] plcUd plcAn 1 maxPostsForPromptDefault =
        l ++ (("ζ".toList : List Char) ++ r) := by
  refine ⟨rfl, by decide, by decide, ?_⟩
  rintro ⟨l, r, h⟩
  have hc : 'ζ' ∈ buildGenerationPrompt [] plcUd plcAn 1 maxPostsForPromptDefault :=
    char_of_infix h (by decide)
  have hnc : ¬('ζ' ∈ buildGenerationPrompt [] plcUd plcAn 1 maxPostsForPromptDefault) := by
    decide
  exact hnc hc

end Postgeist



